import Mathlib

/-
Verification development for the polymarket_data pipeline.

Shallow embedding of the resumable fetch/persist/analyze/join pipeline:
  * download_markets.py      — paginated batch fetch loop, offset watermark, atomic save
  * download_event_details.py / download_price_history.py
                             — pending-set filter, temp-file save, parallel outcome summary
  * analyze_price_data.py    — per-file price series analysis
  * process_data.py          — market/event join into TSV rows

File sizes, directory listings, fetch results and persistence failures are
modelled as explicit inputs (oracles); machine floats are modelled by exact
rationals (the concrete values appearing in the claims are exactly
representable, and zero-ness of a standard deviation is preserved).
-/

namespace Polymarket

/-! ## Directory and file-store model -/

/-- A directory listing: for each file name, `some size` when the file exists
(size in bytes), `none` when it does not. -/
def DirListing : Type := String → Option Nat

/-- The resume predicate used by phase 2 of both per-ID downloaders:
`path.exists() and path.stat().st_size > 0`. -/
def existsNonempty (dir : DirListing) (name : String) : Bool :=
  match dir name with
  | some sz => decide (0 < sz)
  | none => false

/-- Output file name used by `download_event_details.py`: `event_{id}.json`. -/
def eventFileName (eventId : String) : String := "event_" ++ eventId ++ ".json"

/-- Output file name used by `download_price_history.py`:
`price_history_yes_{market_id}.json`. -/
def priceHistoryFileName (marketId : String) : String :=
  "price_history_yes_" ++ marketId ++ ".json"

/-- Phase 2 of `download_event_details.py` (lines 204-215): iterate over the
extracted unique event IDs (in some set-iteration order) and keep exactly
those whose output file does not exist with size > 0. -/
def idsToFetch (dir : DirListing) (uniqueEventIds : List String) : List String :=
  uniqueEventIds.filter (fun id => !existsNonempty dir (eventFileName id))

/-- Phase 2 of `download_price_history.py` (lines 240-251): same filter over
(market_id, clob_token_id) pairs, keyed by the market ID's output file. -/
def pairsToFetch (dir : DirListing) (pairs : List (String × String)) :
    List (String × String) :=
  pairs.filter (fun p => !existsNonempty dir (priceHistoryFileName p.1))

/-! ## Offset watermark (`get_starting_offset` of download_markets.py) -/

/-- Strip an expected literal character sequence from the front of a character
list, returning the remainder; `none` when the input does not start with it. -/
def stripLit : List Char → List Char → Option (List Char)
  | [], rest => some rest
  | _ :: _, [] => none
  | p :: ps, c :: cs => if c = p then stripLit ps cs else none

/-- Greedily take leading decimal digits (the regex `\d+` is greedy). -/
def takeDigits : List Char → List Char × List Char
  | [] => ([], [])
  | c :: cs =>
    if c.isDigit then
      let r := takeDigits cs
      (c :: r.1, r.2)
    else ([], c :: cs)

/-- Decimal value of a digit list. -/
def digitsToNat (ds : List Char) : Nat :=
  ds.foldl (fun n c => 10 * n + (c.toNat - '0'.toNat)) 0

/-- Models `re.compile(r"markets_offset_(\d+)_limit_\d+\.jsonl").match(name)`:
anchored at the start of the name (`re.match`), the remainder of the name
after the pattern is ignored. Returns the captured offset when it matches. -/
def matchBatchFileName (name : String) : Option Nat :=
  match stripLit "markets_offset_".toList name.toList with
  | none => none
  | some rest =>
    let d1 := takeDigits rest
    if d1.1 = [] then none
    else
      match stripLit "_limit_".toList d1.2 with
      | none => none
      | some rest2 =>
        let d2 := takeDigits rest2
        if d2.1 = [] then none
        else
          match stripLit ".jsonl".toList d2.2 with
          | none => none
          | some _ => some (digitsToNat d1.1)

/-- One entry of the output directory: file name and size in bytes. -/
structure DirEntry where
  name : String
  size : Nat
deriving Repr, DecidableEq

/-- The offset an entry contributes to the watermark: its captured offset when
the name matches the batch-file pattern and the file size is strictly
positive, `none` otherwise (empty files are ignored with a warning). -/
def entryOffset (e : DirEntry) : Option Nat :=
  match matchBatchFileName e.name with
  | some off => if 0 < e.size then some off else none
  | none => none

/-- `get_starting_offset` of download_markets.py (lines 45-69): fold over the
directory entries keeping the maximum contributed offset, starting from
`-limit` so that an empty directory yields starting offset 0; the result is
the maximum plus `limit`. -/
def get_starting_offset (files : List DirEntry) (limit : Nat) : Int :=
  let maxSavedOffset : Int := files.foldl
    (fun acc e =>
      match matchBatchFileName e.name with
      | some off => if 0 < e.size then max acc (off : Int) else acc
      | none => acc)
    (-(limit : Int))
  maxSavedOffset + limit

/-- The offsets of the entries that count toward the watermark. -/
def contributingOffsets (files : List DirEntry) : List Nat :=
  files.filterMap entryOffset

/-- Maximum of a list of naturals (0 on the empty list). -/
def natListMax (l : List Nat) : Nat := l.foldl max 0

/-! ## Paginated fetch loop (main loop of download_markets.py) -/

/-- Terminal state of one run of the paginated fetch loop. `outOfFuel` is the
artefact of bounding the (possibly unbounded) `while True` loop by a fuel
parameter; every property below holds for every fuel. -/
inductive LoopHalt where
  | done
  | fetchError
  | saveError
  | outOfFuel
deriving Repr, DecidableEq

/-- The `while True` loop of download_markets.py (lines 181-202), started at
the watermark offset. `fetch offset` is the outcome of
`fetch_markets_batch` (`none` models a fetch error, `some page` the decoded
JSON list); `save offset` is the success of `save_batch_jsonl` for that
offset's page. Returns the list of offsets fetched, in order, together with
the halt state: fetch error halts; an empty page halts (pagination done);
otherwise the page is saved, a save failure halts, and on success the offset
advances by `limit` (after a fixed sleep, irrelevant to the trace). -/
def marketFetchLoop {α : Type} (fetch : Nat → Option (List α)) (save : Nat → Bool)
    (limit : Nat) : Nat → Nat → List Nat × LoopHalt
  | 0, _ => ([], .outOfFuel)
  | fuel + 1, offset =>
    match fetch offset with
    | none => ([offset], .fetchError)
    | some [] => ([offset], .done)
    | some (_ :: _) =>
      if save offset then
        let r := marketFetchLoop fetch save limit fuel (offset + limit)
        (offset :: r.1, r.2)
      else ([offset], .saveError)

/-! ## Temp-file save functions -/

/-- Outcome of the temp-file write step (`open` + `json.dump`/`write`):
either it completes, or it raises an `IOError`, or it raises some other
exception (e.g. a `UnicodeEncodeError` from `json.dump`). `tempCreated`
records whether the temp file came into existence before the error. -/
inductive WriteStep where
  | ok
  | ioErr (tempCreated : Bool)
  | otherErr (tempCreated : Bool)
deriving Repr, DecidableEq

/-- Outcome of the `os.rename` step (only reached when the write completed). -/
inductive RenameStep where
  | ok
  | ioErr
  | otherErr
deriving Repr, DecidableEq

/-- Insert a path into the set of existing files. -/
def insertPath (p : String) (fs : List String) : List String :=
  if p ∈ fs then fs else p :: fs

/-- Remove a path from the set of existing files (`os.remove`, and also the
effect of `os.rename` on its source path). -/
def removePath (p : String) (fs : List String) : List String :=
  fs.filter (fun q => q ≠ p)

/-- `save_batch_jsonl` of download_markets.py (lines 109-140), as a transformer
of the set of existing files, returning the new file set and the success
flag. Empty batch data returns `False` with no file activity. On a
completed write the temp file exists; `os.rename` moves it to the final
name. The `except IOError` branch removes the temp file if it exists; the
generic `except Exception` branch returns `False` WITHOUT removing it. -/
def save_batch_jsonl (batchNonempty : Bool) (w : WriteStep) (r : RenameStep)
    (tmp fin : String) (fs : List String) : List String × Bool :=
  if !batchNonempty then (fs, false)
  else
    match w with
    | .ok =>
      let fs1 := insertPath tmp fs
      match r with
      | .ok => (insertPath fin (removePath tmp fs1), true)
      | .ioErr => (removePath tmp fs1, false)
      | .otherErr => (fs1, false)
    | .ioErr created =>
      (removePath tmp (if created then insertPath tmp fs else fs), false)
    | .otherErr created =>
      ((if created then insertPath tmp fs else fs), false)

/-- `save_event_details` of download_event_details.py (lines 117-151):
`dataValid` is the guard `event_data and isinstance(event_data, dict) and
'id' in event_data`. Unlike `save_batch_jsonl`, the temp-file cleanup sits
after BOTH except branches, so any failure removes the temp file if it
exists. -/
def save_event_details (dataValid : Bool) (w : WriteStep) (r : RenameStep)
    (tmp fin : String) (fs : List String) : List String × Bool :=
  if !dataValid then (fs, false)
  else
    match w with
    | .ok =>
      let fs1 := insertPath tmp fs
      match r with
      | .ok => (insertPath fin (removePath tmp fs1), true)
      | .ioErr => (removePath tmp fs1, false)
      | .otherErr => (removePath tmp fs1, false)
    | .ioErr created =>
      (removePath tmp (if created then insertPath tmp fs else fs), false)
    | .otherErr created =>
      (removePath tmp (if created then insertPath tmp fs else fs), false)

/-- `save_price_history` of download_price_history.py (lines 158-189): same
control flow as `save_event_details` (guard on the data shape, temp write,
rename, cleanup after both except branches). -/
def save_price_history (dataValid : Bool) (w : WriteStep) (r : RenameStep)
    (tmp fin : String) (fs : List String) : List String × Bool :=
  save_event_details dataValid w r tmp fin fs

/-! ## Parallel fetch summary aggregation -/

/-- Per-item outcome as seen by the driver loop over `as_completed` futures:
the worker's returned status, or `raised` when `future.result()` re-raises
an exception out of the worker. -/
inductive FetchOutcome where
  | success
  | fetchErr
  | saveErr
  | raised
deriving Repr, DecidableEq

/-- An item failed at the fetch step: the worker reported a fetch error, or
its unit of work raised (the driver folds a raised fault into the
fetch-error bucket). -/
def outcomeIsFetchFailure : FetchOutcome → Bool
  | .fetchErr => true
  | .raised => true
  | _ => false

/-- An item failed at the save step. -/
def outcomeIsSaveFailure : FetchOutcome → Bool
  | .saveErr => true
  | _ => false

/-- End-of-run summary state of download_price_history.py (lines 257-295). -/
structure PHSummary where
  success_count : Nat := 0
  fetch_error_count : Nat := 0
  save_error_count : Nat := 0
  fetch_error_ids : List String := []
  save_error_ids : List String := []
deriving Repr, DecidableEq

/-- One step of the `as_completed` aggregation loop of
download_price_history.py: successes bump `success_count`; a fetch error
(status `fetch_error_or_no_data`) bumps the fetch counter and appends the
market ID; a save error does the same for the save bucket; an exception
raised by the worker is counted as a fetch error for that market ID. -/
def phStep (s : PHSummary) (item : String × FetchOutcome) : PHSummary :=
  match item.2 with
  | .success => { s with success_count := s.success_count + 1 }
  | .fetchErr => { s with fetch_error_count := s.fetch_error_count + 1,
                          fetch_error_ids := s.fetch_error_ids ++ [item.1] }
  | .saveErr => { s with save_error_count := s.save_error_count + 1,
                         save_error_ids := s.save_error_ids ++ [item.1] }
  | .raised => { s with fetch_error_count := s.fetch_error_count + 1,
                        fetch_error_ids := s.fetch_error_ids ++ [item.1] }

/-- Fold of `phStep` over the items in completion order. -/
def phAggregate (completed : List (String × FetchOutcome)) : PHSummary :=
  completed.foldl phStep ⟨0, 0, 0, [], []⟩

/-- End-of-run summary state of download_event_details.py (lines 221-252):
a single shared `error_count` plus the two ID lists; `processed_count`
counts successes. -/
structure EvSummary where
  processed_count : Nat := 0
  error_count : Nat := 0
  fetch_errors : List String := []
  save_errors : List String := []
deriving Repr, DecidableEq

/-- One step of the aggregation loop of download_event_details.py. -/
def evStep (s : EvSummary) (item : String × FetchOutcome) : EvSummary :=
  match item.2 with
  | .success => { s with processed_count := s.processed_count + 1 }
  | .fetchErr => { s with error_count := s.error_count + 1,
                          fetch_errors := s.fetch_errors ++ [item.1] }
  | .saveErr => { s with error_count := s.error_count + 1,
                          save_errors := s.save_errors ++ [item.1] }
  | .raised => { s with error_count := s.error_count + 1,
                          fetch_errors := s.fetch_errors ++ [item.1] }

/-- Fold of `evStep` over the items in completion order. -/
def evAggregate (completed : List (String × FetchOutcome)) : EvSummary :=
  completed.foldl evStep ⟨0, 0, [], []⟩

/-! ## Python values

The JSON files are loaded with `json.load`, which produces Python values of
these shapes (floats are modelled by exact rationals). -/

/-- A Python value as produced by `json.load`. -/
inductive PyVal where
  | vnull
  | vbool (b : Bool)
  | vint (n : Int)
  | vfloat (q : Rat)
  | vstr (s : String)
  | vlist (items : List PyVal)
  | vdict (entries : List (String × PyVal))
deriving Repr

/-- Truncation toward zero: the behaviour of Python `int()` on a float. -/
def ratTrunc (q : Rat) : Int := if 0 ≤ q then q.floor else q.ceil

/-- Parse of a decimal digit run, `none` when empty or not all digits. -/
def parseDigits (cs : List Char) : Option Nat :=
  if cs = [] then none
  else if cs.all Char.isDigit then some (digitsToNat cs) else none

/-- Unsigned part of a Python numeric string: digits, optionally followed by a
dot and further digits (`"1"`, `"1.5"`, `"1."`, `".5"`). Python `float()`
also accepts exponents, `inf`/`nan` and surrounding whitespace; such strings
do not occur in this data and are modelled as parse failures. -/
def parseUnsignedFloat (cs : List Char) : Option Rat :=
  let intPart := cs.takeWhile Char.isDigit
  let rest := cs.dropWhile Char.isDigit
  match rest with
  | [] => if intPart = [] then none else some ((digitsToNat intPart : Int) : Rat)
  | '.' :: fracPart =>
    if fracPart.all Char.isDigit && (!intPart.isEmpty || !fracPart.isEmpty) then
      some (((digitsToNat intPart : Int) : Rat) +
        ((digitsToNat fracPart : Int) : Rat) / ((10 : Rat) ^ fracPart.length))
    else none
  | _ => none

/-- Python `float(s)` on the strings occurring here: optional sign, then an
unsigned decimal number. -/
def parseFloatStr (s : String) : Option Rat :=
  match s.toList with
  | '-' :: cs => (parseUnsignedFloat cs).map (fun q => -q)
  | '+' :: cs => parseUnsignedFloat cs
  | cs => parseUnsignedFloat cs

/-- Python `int(s)`: optional sign then digits (a fractional string fails). -/
def parseIntStr (s : String) : Option Int :=
  match s.toList with
  | '-' :: cs => (parseDigits cs).map (fun n => -(n : Int))
  | '+' :: cs => (parseDigits cs).map (fun n => (n : Int))
  | cs => (parseDigits cs).map (fun n => (n : Int))

/-- Python `float(x)`: succeeds on numbers, bools (a bool is an int in
Python) and numeric strings; raises `ValueError`/`TypeError` (here `none`)
otherwise. -/
def pyFloat : PyVal → Option Rat
  | .vint n => some (n : Rat)
  | .vfloat q => some q
  | .vbool b => some (if b then 1 else 0)
  | .vstr s => parseFloatStr s
  | _ => none

/-- Python `int(x)`: succeeds on ints, floats (truncating), bools and integer
strings; raises otherwise. -/
def pyInt : PyVal → Option Int
  | .vint n => some n
  | .vfloat q => some (ratTrunc q)
  | .vbool b => some (if b then 1 else 0)
  | .vstr s => parseIntStr s
  | _ => none

/-- Association-list lookup, the behaviour of `dict.get` on a parsed JSON
object (JSON objects have unique keys). -/
def dictGet (entries : List (String × PyVal)) (key : String) : Option PyVal :=
  match entries with
  | [] => none
  | e :: rest => if e.1 = key then some e.2 else dictGet rest key

/-! ## Price-series analysis (analyze_price_data.py) -/

/-- The point-parsing loop of `analyze_file` (lines 58-68): a point counts as
valid when it is a dict with keys `p` and `t` whose price converts with
`float()` and timestamp with `int()`; every other point bumps the malformed
counter. Returns (prices, timestamps, malformed count), in input order. -/
def parsePoints : List PyVal → List Rat × List Int × Nat
  | [] => ([], [], 0)
  | point :: rest =>
    let r := parsePoints rest
    match point with
    | .vdict entries =>
      match dictGet entries "p", dictGet entries "t" with
      | some pv, some tv =>
        match pyFloat pv, pyInt tv with
        | some price, some time => (price :: r.1, time :: r.2.1, r.2.2)
        | _, _ => (r.1, r.2.1, r.2.2 + 1)
      | _, _ => (r.1, r.2.1, r.2.2 + 1)
    | _ => (r.1, r.2.1, r.2.2 + 1)

/-- Arithmetic mean (`statistics.mean`), exact. Only applied to non-empty
lists. -/
def ratMean (l : List Rat) : Rat := l.sum / (l.length : Rat)

/-- Sample variance, i.e. the square of `statistics.stdev`. Only applied to
lists of length at least 2. The source stores the square root of this
value; since squaring is injective on non-negative reals, storing the square
preserves exactly the comparisons the source makes (equality with 0). -/
def sampleVariance (l : List Rat) : Rat :=
  let m := ratMean l
  (l.map (fun x => (x - m) ^ 2)).sum / ((l.length : Rat) - 1)

/-- Minimum of a list of integers (0 on the empty list; only applied to
non-empty lists). -/
def intListMin : List Int → Int
  | [] => 0
  | x :: xs => xs.foldl min x

/-- Maximum of a list of integers (0 on the empty list). -/
def intListMax : List Int → Int
  | [] => 0
  | x :: xs => xs.foldl max x

/-- Insertion into a sorted list of integers. -/
def insertSorted (x : Int) : List Int → List Int
  | [] => [x]
  | y :: ys => if x ≤ y then x :: y :: ys else y :: insertSorted x ys

/-- Insertion sort (the sort underlying `statistics.median`). -/
def sortInts (l : List Int) : List Int := l.foldr insertSorted []

/-- `statistics.median` over integers: middle element of the sorted list for
odd length, average of the two middle elements for even length. -/
def medianInts (l : List Int) : Rat :=
  let s := sortInts l
  let n := s.length
  if n = 0 then 0
  else if n % 2 = 1 then ((s.getD (n / 2) 0 : Int) : Rat)
  else (((s.getD (n / 2 - 1) 0 : Int) : Rat) + ((s.getD (n / 2) 0 : Int) : Rat)) / 2

/-- Round half to even on an exact value, the behaviour of Python `round`. -/
def roundHalfEven (q : Rat) : Int :=
  let f := q.floor
  let frac := q - (f : Rat)
  if frac < 1 / 2 then f
  else if 1 / 2 < frac then f + 1
  else if f % 2 = 0 then f else f + 1

/-- Python `round(x, 2)` on an exact value. -/
def round2 (q : Rat) : Rat := ((roundHalfEven (q * 100) : Int) : Rat) / 100

/-- Successive differences `t[i+1] - t[i]` over the timestamps in received
order (lines 96-98). -/
def successiveDeltas : List Int → List Int
  | a :: b :: rest => (b - a) :: successiveDeltas (b :: rest)
  | _ => []

/-- Occurrences of a value in a list of integers. -/
def countOcc (l : List Int) (d : Int) : Nat := (l.filter (fun x => x == d)).length

/-- Auxiliary of `dedupFirst`: keep the elements not yet seen, threading the
seen set. -/
def dedupFirstGo {α : Type} [DecidableEq α] (seen : List α) : List α → List α
  | [] => []
  | x :: xs => if x ∈ seen then dedupFirstGo seen xs else x :: dedupFirstGo (x :: seen) xs

/-- First-occurrence deduplication (the key order of a Python dict built by
insertion). -/
def dedupFirst {α : Type} [DecidableEq α] (l : List α) : List α :=
  dedupFirstGo [] l

/-- The `delta_counts` histogram (lines 109-111): value and occurrence count,
keyed in first-occurrence order. -/
def deltaCounts (deltas : List Int) : List (Int × Nat) :=
  (dedupFirst deltas).map (fun d => (d, countOcc deltas d))

/-- The `non_60_second_deltas` sub-dict: histogram entries whose delta is not
the canonical 60-second spacing (line 113). -/
def non60Deltas (deltas : List Int) : List (Int × Nat) :=
  (deltaCounts deltas).filter (fun e => e.1 != 60)

/-- The `time_delta_stats` dict (lines 102-115); `non_60_second_deltas` is
represented by a list that is empty exactly when the key is absent. -/
structure TimeDeltaStats where
  min_delta_seconds : Int
  max_delta_seconds : Int
  mean_delta_seconds : Rat
  median_delta_seconds : Rat
  num_deltas : Nat
  non_60_second_deltas : List (Int × Nat)
deriving Repr, DecidableEq

/-- The issue messages `analyze_file` can append, as tagged values; `render`
below recovers the source text. The source's `except` around the
delta-statistics block is unreachable for integer timestamps (min, max,
mean and median of a non-empty list of ints never raise), so no
constructor is needed for it. -/
inductive Issue where
  | fileNotFound
  | invalidJson
  | fileReadError
  | historyNotList
  | historyEmpty
  | malformedPoints (count : Nat)
  | noValidPoints
  | stdevUndefined
  | constantPrice
  | timeRangeError
  | veryFewPoints (count : Nat)
deriving Repr, DecidableEq

/-- Message text of each issue (single quotes of the source written as
`\x27`; the file-specific messages keep only their fixed part, the source
interpolates the file path or exception text). -/
def Issue.render : Issue → String
  | .fileNotFound => "File not found: "
  | .invalidJson => "Invalid JSON format: "
  | .fileReadError => "Error processing file "
  | .historyNotList =>
      "No \x27history\x27 key found, history is not a list, or history is empty."
  | .historyEmpty => "History list is empty."
  | .malformedPoints n => toString n ++ " malformed data point(s) found and skipped."
  | .noValidPoints => "No valid price data points found after parsing."
  | .stdevUndefined =>
      "Not enough data points (need at least 2) to calculate standard deviation."
  | .constantPrice => "Price is constant throughout the file (StdDev is 0)."
  | .timeRangeError => "Error processing timestamps for time range: "
  | .veryFewPoints n => "Very few data points (" ++ toString n ++ ")."

/-- The result record of `analyze_file` (lines 20-29). `std_dev_price_sq`
holds the square of the source's `std_dev_price` (see `sampleVariance`);
`min_time`/`max_time` hold the timestamps whose ISO rendering the source
stores; `time_delta_stats` is `none` while the dict is empty. -/
structure AnalysisResult where
  num_points : Nat := 0
  mean_price : Option Rat := none
  std_dev_price_sq : Option Rat := none
  min_time : Option Int := none
  max_time : Option Int := none
  time_delta_stats : Option TimeDeltaStats := none
  issues : List Issue := []
deriving Repr, DecidableEq

/-- How reading and JSON-decoding the input file went: the three except
branches of lines 34-42, or the parsed value. -/
inductive FileRead where
  | fileNotFound
  | invalidJson
  | readError
  | ok (data : PyVal)

/-- Analysis of a non-empty history list (lines 55-122). `fmtOk t` is the
success of `datetime.fromtimestamp(t)` (platform-dependent range). -/
def analyzeHistory (fmtOk : Int → Bool) (history : List PyVal) : AnalysisResult :=
  if history.isEmpty then { issues := [.historyEmpty] }
  else
    let parsed := parsePoints history
    let prices := parsed.1
    let timestamps := parsed.2.1
    let malformed := parsed.2.2
    let issues0 : List Issue :=
      if 0 < malformed then [.malformedPoints malformed] else []
    let n := prices.length
    if prices.isEmpty then { num_points := 0, issues := issues0 ++ [.noValidPoints] }
    else
      let meanP := ratMean prices
      let stdev : Option Rat × List Issue :=
        if n < 2 then (none, issues0 ++ [.stdevUndefined])
        else
          let v := sampleVariance prices
          (some v, issues0 ++ (if v = 0 then [.constantPrice] else []))
      let tmin := intListMin timestamps
      let tmax := intListMax timestamps
      let times : Option Int × Option Int × List Issue :=
        if fmtOk tmin then
          if fmtOk tmax then (some tmin, some tmax, stdev.2)
          else (some tmin, none, stdev.2 ++ [.timeRangeError])
        else (none, none, stdev.2 ++ [.timeRangeError])
      let deltas := successiveDeltas timestamps
      let tds : Option TimeDeltaStats :=
        if deltas.isEmpty then none
        else some
          { min_delta_seconds := intListMin deltas
            max_delta_seconds := intListMax deltas
            mean_delta_seconds := round2 (ratMean (deltas.map (fun d => (d : Rat))))
            median_delta_seconds := medianInts deltas
            num_deltas := deltas.length
            non_60_second_deltas := non60Deltas deltas }
      let issuesF := if n < 5 then times.2.2 ++ [.veryFewPoints n] else times.2.2
      { num_points := n
        mean_price := some meanP
        std_dev_price_sq := stdev.1
        min_time := times.1
        max_time := times.2.1
        time_delta_stats := tds
        issues := issuesF }

/-- `analyze_file` of analyze_price_data.py (lines 8-122). The three read
failures return a record carrying only the matching issue. For parsed data,
`data.get("history")` is only defined on a dict: a file whose JSON parses
to anything else raises an uncaught `AttributeError`, modelled by
`.error ()`. A missing `history` key (so `data.get` returns `None`) and a
non-list `history` both fall into the `historyNotList` record. -/
def analyze_file (fmtOk : Int → Bool) (input : FileRead) :
    Except Unit AnalysisResult :=
  match input with
  | .fileNotFound => .ok { issues := [.fileNotFound] }
  | .invalidJson => .ok { issues := [.invalidJson] }
  | .readError => .ok { issues := [.fileReadError] }
  | .ok data =>
    match data with
    | .vdict entries =>
      match dictGet entries "history" with
      | some (.vlist history) => .ok (analyzeHistory fmtOk history)
      | _ => .ok { issues := [.historyNotList] }
    | _ => .error ()

/-- Success predicate of `datetime.fromtimestamp` on CPython / 64-bit Unix:
timestamps between the epoch and 9999-12-31 convert, out-of-range values
raise. The exact platform bound is irrelevant to the claims; what matters
is that the conversion can fail. -/
def fromtimestampOk (t : Int) : Bool := decide (0 ≤ t ∧ t ≤ 253402300799)

/-! ## Join phase (`create_market_and_event_tsvs` of process_data.py) -/

/-- Python `str()` on the scalar shapes occurring as field values. Entity IDs
in this data are ints or strings, for which the rendering is exact; float
and container renderings are abbreviated (no claim depends on them). -/
def pyStr : PyVal → String
  | .vnull => "None"
  | .vbool true => "True"
  | .vbool false => "False"
  | .vint n => toString n
  | .vfloat q => toString q
  | .vstr s => s
  | .vlist _ => "<list>"
  | .vdict _ => "<dict>"

/-- Python truthiness of a value. -/
def pyTruthy : PyVal → Bool
  | .vnull => false
  | .vbool b => b
  | .vint n => n != 0
  | .vfloat q => q != 0
  | .vstr s => !s.isEmpty
  | .vlist l => !l.isEmpty
  | .vdict d => !d.isEmpty

/-- Replace TSV-breaking characters by spaces (`sanitize_value`, lines 48-55;
tab, newline and carriage return each become one space). -/
def cleanChar (c : Char) : Char :=
  if c = '\t' ∨ c = '\n' ∨ c = '\r' then ' ' else c

/-- `sanitize_value`: `None` renders as the empty string, anything else as its
`str()` with TSV-breaking characters replaced. -/
def sanitize_value (v : PyVal) : String :=
  match v with
  | .vnull => ""
  | _ => String.mk ((pyStr v).toList.map cleanChar)

/-- `market_headers` of process_data.py (lines 145-158). -/
def market_headers : List String :=
  ["id", "question", "conditionId", "slug", "resolutionSource", "endDate",
   "category", "liquidity", "startDate", "image", "icon", "description",
   "outcomes", "outcomePrices", "volume", "active", "marketType", "closed",
   "marketMakerAddress", "createdAt", "updatedAt", "closedTime", "new",
   "featured", "archived", "restricted", "volumeNum", "liquidityNum",
   "endDateIso", "startDateIso", "hasReviewedDates", "volume24hr", "volume1wk",
   "volume1mo", "volume1yr", "clobTokenIds", "fpmmLive", "volumeClob",
   "liquidityClob", "creator", "ready", "funded", "cyom", "competitive",
   "approved", "rewardsMinSize", "rewardsMaxSpread", "spread",
   "oneDayPriceChange", "oneHourPriceChange", "oneWeekPriceChange",
   "oneMonthPriceChange", "oneYearPriceChange", "lastTradePrice", "bestBid",
   "bestAsk", "clearBookOnStart", "manualActivation", "negRiskOther",
   "umaResolutionStatuses", "pendingDeployment", "deploying",
   "enableOrderBook", "orderPriceMinTickSize", "orderMinSize",
   "acceptingOrders", "umaBond", "umaReward", "fee"]

/-- `market_headers_with_ids` (lines 160-161): the prefixed field columns plus
the event-IDs column and the price-history indicator. -/
def market_headers_with_ids : List String :=
  market_headers.map (fun h => "market_" ++ h) ++
    ["market_event_ids", "market_downloaded_pricehistory_nonempty"]

/-- `event_headers` of process_data.py (lines 163-172). -/
def event_headers : List String :=
  ["id", "ticker", "slug", "title", "description", "resolutionSource",
   "startDate", "creationDate", "endDate", "image", "icon", "active", "closed",
   "archived", "new", "featured", "restricted", "liquidity", "volume",
   "openInterest", "sortBy", "category", "published_at", "createdAt",
   "updatedAt", "competitive", "volume24hr", "volume1wk", "volume1mo",
   "volume1yr", "enableOrderBook", "liquidityClob", "commentCount", "cyom",
   "closedTime", "showAllOutcomes", "showMarketImages", "enableNegRisk",
   "seriesSlug", "negRiskAugmented", "pendingDeployment", "deploying"]

/-- `event_headers_prefixed` (line 173). -/
def event_headers_prefixed : List String :=
  event_headers.map (fun h => "event_" ++ h)

/-- The linked event IDs of a market record (lines 224-228): from the `events`
value when it is a list, the `id` of each dict element, stringified, in
order; elements without the shape contribute nothing, and a missing or
non-list `events` yields the empty list. -/
def marketEventIds (entries : List (String × PyVal)) : List String :=
  match dictGet entries "events" with
  | some (.vlist evs) =>
    evs.filterMap (fun ev =>
      match ev with
      | .vdict eEntries => (dictGet eEntries "id").map pyStr
      | _ => none)
  | _ => []

/-- `str(market_data.get('id', ''))` (line 221). -/
def marketIdStr (entries : List (String × PyVal)) : String :=
  match dictGet entries "id" with
  | some v => pyStr v
  | none => ""

/-- State of a stored file as found on disk. -/
inductive StoredFile where
  | absent
  | unreadable
  | content (data : PyVal)

/-- The price-history check (lines 234-252): true exactly when the market ID
is truthy, the file `price_history_yes_{id}.json` exists, reads, parses,
and its `history` value is a non-empty list; every failure (missing file,
IO error, JSON error, wrong shape) leaves the flag false. -/
def hasNonEmptyHistory (price : String → StoredFile) (marketId : String) : Bool :=
  if marketId.isEmpty then false
  else
    match price (priceHistoryFileName marketId) with
    | .content (.vdict entries) =>
      match dictGet entries "history" with
      | some (.vlist l) => !l.isEmpty
      | _ => false
    | _ => false

/-- Value of one market-row column (lines 255-268): the event-IDs column gets
the comma-joined string, the indicator column `str(bool)`, and every other
column the sanitized field value, with the raw `events` field excluded and
missing fields (or an empty market dict, which is falsy) as empty string. -/
def marketRowValue (entries : List (String × PyVal)) (idsStr : String)
    (histFlag : Bool) (header : String) : String :=
  if header = "market_event_ids" then idsStr
  else if header = "market_downloaded_pricehistory_nonempty" then
    (if histFlag then "True" else "False")
  else
    let key := header.drop 7
    if entries.isEmpty then sanitize_value (.vstr "")
    else if key = "events" then sanitize_value (.vstr "")
    else
      match dictGet entries key with
      | some v => sanitize_value v
      | none => sanitize_value (.vstr "")

/-- One market TSV row: the row-construction loop over
`market_headers_with_ids`. -/
def marketRow (entries : List (String × PyVal)) (idsStr : String)
    (histFlag : Bool) : List String :=
  market_headers_with_ids.map (marketRowValue entries idsStr histFlag)

/-- Value of one event-row column (lines 295-303): nested structures
(`markets`, `series`, `tags`) are excluded, missing fields render empty. -/
def eventRowValue (eEntries : List (String × PyVal)) (header : String) : String :=
  let key := header.drop 6
  if key = "markets" ∨ key = "series" ∨ key = "tags" then sanitize_value (.vstr "")
  else
    match dictGet eEntries key with
    | some v => sanitize_value v
    | none => sanitize_value (.vstr "")

/-- One event TSV row over `event_headers_prefixed`. -/
def eventRow (eEntries : List (String × PyVal)) : List String :=
  event_headers_prefixed.map (eventRowValue eEntries)

/-- State of an event detail file. The downloader only ever writes JSON
objects (`save_event_details` requires a dict with an `id`), so loaded
content is modelled as an object; a file holding other JSON (which would
make the row construction raise) is outside the data this pipeline writes.
`parseError` covers both `JSONDecodeError` and `IOError` while loading. -/
inductive EventFile where
  | absent
  | parseError
  | object (entries : List (String × PyVal))

/-- An event ID whose first load attempt yields a row: the file exists, loads,
and the loaded object is truthy (`if event_data:`, line 294). -/
def loadEmitsRow (store : String → EventFile) (eid : String) : Bool :=
  match store eid with
  | .object entries => !entries.isEmpty
  | _ => false

/-- One line of a market .jsonl file: either it fails `json.loads` or it is a
parsed JSON object. (A line holding non-object JSON would raise at
`market_data.get` and abort the enclosing file's loop; the batch files are
written by download_markets.py from lists of objects, so such lines are
outside the data this pipeline writes.) -/
inductive MarketLine where
  | parseError
  | record (entries : List (String × PyVal))

/-- Running state of the join pass. `marketRows`/`eventRows` collect the
`writerow` calls in order; `attemptedEventIds` and `writtenEventIds` record
which event IDs were probed on disk and which produced a row (they carry no
information beyond the `writerow`/`is_file` calls, ordered). -/
structure JoinState where
  marketRows : List (List String) := []
  eventRows : List (List String) := []
  processed_event_ids : List String := []
  attemptedEventIds : List String := []
  writtenEventIds : List String := []
  event_file_missing_count : Nat := 0
  event_parse_error_count : Nat := 0
  market_parse_error_count : Nat := 0

/-- Processing of one linked event ID (lines 275-309): an ID already in
`processed_event_ids` does nothing; otherwise the event file is probed
(missing file logged and counted; parse failure counted; a truthy loaded
object emits one row), and the ID is added to `processed_event_ids`
regardless of the outcome. -/
def processEventId (store : String → EventFile) (s : JoinState) (eid : String) :
    JoinState :=
  if eid ∈ s.processed_event_ids then s
  else
    let s1 := { s with attemptedEventIds := s.attemptedEventIds ++ [eid] }
    let s2 :=
      match store eid with
      | .absent =>
        { s1 with event_file_missing_count := s1.event_file_missing_count + 1 }
      | .parseError =>
        { s1 with event_parse_error_count := s1.event_parse_error_count + 1 }
      | .object eEntries =>
        if eEntries.isEmpty then s1
        else
          { s1 with eventRows := s1.eventRows ++ [eventRow eEntries],
                    writtenEventIds := s1.writtenEventIds ++ [eid] }
    { s2 with processed_event_ids := s2.processed_event_ids ++ [eid] }

/-- Processing of one market line (lines 208-309): a parse failure is counted
and skipped; a record always emits exactly one market row (built from the
comma-joined linked-event IDs and the price-history flag) and then walks
its linked event IDs. -/
def processMarketLine (store : String → EventFile) (price : String → StoredFile)
    (s : JoinState) (line : MarketLine) : JoinState :=
  match line with
  | .parseError =>
    { s with market_parse_error_count := s.market_parse_error_count + 1 }
  | .record entries =>
    let ids := marketEventIds entries
    let idsStr := String.intercalate "," ids
    let flag := hasNonEmptyHistory price (marketIdStr entries)
    let s1 := { s with marketRows := s.marketRows ++ [marketRow entries idsStr flag] }
    ids.foldl (processEventId store) s1

/-- The whole join pass of `create_market_and_event_tsvs` over the market
lines in file order, starting from the empty state (headers already
written). -/
def create_market_and_event_tsvs (store : String → EventFile)
    (price : String → StoredFile) (lines : List MarketLine) : JoinState :=
  lines.foldl (processMarketLine store price) ⟨[], [], [], [], [], 0, 0, 0⟩

/-- Whether a line parsed as a record. -/
def isRecordLine : MarketLine → Bool
  | .record _ => true
  | .parseError => false

/-- All linked event IDs of a run, in processing order (parse failures
contribute nothing). -/
def joinAllEventIds (lines : List MarketLine) : List String :=
  (lines.map (fun line =>
    match line with
    | .record entries => marketEventIds entries
    | .parseError => [])).flatten

/-- The IDs of a list not yet in `seen`, first occurrence only, in order: the
IDs a run starting with `seen` as its processed set will probe. -/
def newFirstIds (seen : List String) : List String → List String
  | [] => []
  | id :: rest =>
    if id ∈ seen then newFirstIds seen rest
    else id :: newFirstIds (id :: seen) rest

/-- Whether an issue list contains a very-few-data-points issue (the source
itself detects this downstream by the substring "Very few data points" of
the rendered message). -/
def hasVeryFewIssue (issues : List Issue) : Bool :=
  issues.any (fun i =>
    match i with
    | .veryFewPoints _ => true
    | _ => false)

/-- Number of valid points of a history list (price parses as float and
timestamp as int). -/
def validPointCount (history : List PyVal) : Nat := (parsePoints history).1.length

/-- Whether a Python value is a dict. -/
def isDictVal : PyVal → Bool
  | .vdict _ => true
  | _ => false

/-- Whether the `history` value of a parsed object is a list
(`isinstance(history, list)`; a missing key yields `None`, not a list). -/
def historyIsList (entries : List (String × PyVal)) : Bool :=
  match dictGet entries "history" with
  | some (.vlist _) => true
  | _ => false

/-- Concrete join scenario for C8: an event store holding only `e2`. -/
def joinDemoStore : String → EventFile :=
  fun eid => if eid = "e2" then .object [("id", .vstr "e2")] else .absent

/-- Concrete join scenario for C8: one market linked to events `e1` and `e2`
(only `e2`'s file exists), followed by a second market, to exhibit that the
missing-file condition does not halt the run. -/
def joinDemoLines : List MarketLine :=
  [.record [("id", .vstr "m1"),
            ("events", .vlist [.vdict [("id", .vstr "e1")],
                               .vdict [("id", .vstr "e2")]])],
   .record [("id", .vstr "m2")]]

/-- The final join state of the C8 scenario (no price-history files). -/
def joinDemoState : JoinState :=
  create_market_and_event_tsvs joinDemoStore (fun _ => .absent) joinDemoLines

/-! ## Helper lemmas -/

@[simp]
theorem mem_insertPath {x p : String} {fs : List String} :
    x ∈ insertPath p fs ↔ x = p ∨ x ∈ fs := by
  unfold insertPath
  by_cases h : p ∈ fs
  · simp only [if_pos h]
    exact ⟨Or.inr, fun hx => hx.elim (fun e => e ▸ h) id⟩
  · simp [if_neg h, List.mem_cons]

@[simp]
theorem mem_removePath {x p : String} {fs : List String} :
    x ∈ removePath p fs ↔ x ∈ fs ∧ x ≠ p := by
  simp [removePath]

/-- The accumulator step of the watermark fold. -/
def intMaxStep (a : Int) (o : Nat) : Int := max a (o : Int)

theorem foldl_intmax_spec (l : List Nat) :
    ∀ acc : Int,
      (acc ≤ l.foldl intMaxStep acc)
      ∧ (∀ o ∈ l, (o : Int) ≤ l.foldl intMaxStep acc)
      ∧ (l.foldl intMaxStep acc = acc
          ∨ ∃ o ∈ l, l.foldl intMaxStep acc = (o : Int)) := by
  induction l with
  | nil => intro acc; simp
  | cons x xs ih =>
    intro acc
    obtain ⟨h1, h2, h3⟩ := ih (intMaxStep acc x)
    have hex : acc ⊔ (x : Int) = intMaxStep acc x := rfl
    refine ⟨le_trans (hex ▸ le_max_left _ _) h1, ?_, ?_⟩
    · intro o ho
      rcases List.mem_cons.mp ho with rfl | ho
      · exact le_trans (hex ▸ le_max_right acc (o : Int)) h1
      · exact h2 o ho
    · rcases h3 with h3 | ⟨o, ho, h3⟩
      · rcases max_choice acc (x : Int) with hm | hm
        · exact Or.inl (by rw [List.foldl_cons, h3, ← hex, hm])
        · exact Or.inr ⟨x, List.mem_cons_self _ _, by rw [List.foldl_cons, h3, ← hex, hm]⟩
      · exact Or.inr ⟨o, List.mem_cons_of_mem _ ho, h3⟩

theorem gso_foldl_eq (files : List DirEntry) :
    ∀ acc : Int,
      files.foldl
        (fun acc e =>
          match matchBatchFileName e.name with
          | some off => if 0 < e.size then max acc (off : Int) else acc
          | none => acc) acc
      = (contributingOffsets files).foldl intMaxStep acc := by
  induction files with
  | nil => intro acc; rfl
  | cons e rest ih =>
    intro acc
    simp only [List.foldl_cons, contributingOffsets, List.filterMap_cons]
    cases hm : matchBatchFileName e.name with
    | none => simpa [entryOffset, hm] using ih acc
    | some off =>
      by_cases hs : 0 < e.size
      · simpa [entryOffset, hm, hs, intMaxStep] using ih (max acc (off : Int))
      · simpa [entryOffset, hm, hs] using ih acc

/-! ## Claim theorems -/

/-- C1: for every extracted ID set S (in any iteration order) and the
already-downloaded set D (IDs whose output file exists with size > 0), the
submitted set is exactly S - D: an ID is submitted iff it is in S and its
output file is not non-empty, and the submitted collection is invariant
(up to permutation) under the iteration order over S; likewise for the
(market, token) pairs of the price-history downloader. -/
theorem pending_set_is_exact_difference (dir : DirListing)
    (order order2 : List String) (pairs : List (String × String)) :
    (∀ id, id ∈ idsToFetch dir order ↔
      id ∈ order ∧ existsNonempty dir (eventFileName id) = false)
    ∧ (order.Perm order2 → (idsToFetch dir order).Perm (idsToFetch dir order2))
    ∧ (∀ p, p ∈ pairsToFetch dir pairs ↔
      p ∈ pairs ∧ existsNonempty dir (priceHistoryFileName p.1) = false) := by
  refine ⟨fun id => ?_, fun h => h.filter _, fun p => ?_⟩
  · simp [idsToFetch, List.mem_filter]
  · simp [pairsToFetch, List.mem_filter]

/-- Witness for C1 at a concrete store and two iteration orders. -/
theorem pending_set_is_exact_difference_witness :
    (["a", "b"] : List String).Perm ["b", "a"]
    ∧ (idsToFetch
          (fun name => if name = "event_a.json" then some 3 else none)
          ["a", "b"]).Perm
        (idsToFetch
          (fun name => if name = "event_a.json" then some 3 else none)
          ["b", "a"]) :=
  ⟨by decide,
   (pending_set_is_exact_difference
      (fun name => if name = "event_a.json" then some 3 else none)
      ["a", "b"] ["b", "a"] []).2.1 (by decide)⟩

/-- C3: `get_starting_offset` returns max(offset over matching non-empty
files) + limit — only files whose name matches the batch pattern and whose
size is strictly positive contribute — and 0 when no file contributes
(zero-length files are ignored). -/
theorem get_starting_offset_spec (files : List DirEntry) (limit : Nat) :
    (contributingOffsets files = [] → get_starting_offset files limit = 0)
    ∧ (contributingOffsets files ≠ [] →
        ∃ m, m ∈ contributingOffsets files
          ∧ (∀ o ∈ contributingOffsets files, o ≤ m)
          ∧ get_starting_offset files limit = (m : Int) + limit) := by
  constructor
  · intro h
    unfold get_starting_offset
    rw [gso_foldl_eq, h]
    simp
  · intro h
    obtain ⟨hle, hmem, hlast⟩ := foldl_intmax_spec (contributingOffsets files)
      (-(limit : Int))
    have key : ∃ o ∈ contributingOffsets files,
        (contributingOffsets files).foldl intMaxStep
          (-(limit : Int)) = (o : Int) := by
      rcases hlast with hl | hl
      · obtain ⟨o₀, ho₀⟩ := List.exists_mem_of_ne_nil _ h
        refine ⟨o₀, ho₀, ?_⟩
        have h1 : (o₀ : Int) ≤ -(limit : Int) := hl ▸ hmem o₀ ho₀
        rw [hl]
        omega
      · exact hl
    obtain ⟨m, hm, heq⟩ := key
    refine ⟨m, hm, fun o ho => ?_, ?_⟩
    · have := hmem o ho
      rw [heq] at this
      exact_mod_cast this
    · unfold get_starting_offset
      rw [gso_foldl_eq, heq]

/-- Witness for C3: a directory with one matching non-empty file, one matching
empty file and one non-matching file. -/
theorem get_starting_offset_spec_witness :
    contributingOffsets
        [⟨"markets_offset_40_limit_20.jsonl", 5⟩,
         ⟨"markets_offset_60_limit_20.jsonl", 0⟩,
         ⟨"other.txt", 9⟩] ≠ []
    ∧ ∃ m, m ∈ contributingOffsets
          [⟨"markets_offset_40_limit_20.jsonl", 5⟩,
           ⟨"markets_offset_60_limit_20.jsonl", 0⟩,
           ⟨"other.txt", 9⟩]
        ∧ (∀ o ∈ contributingOffsets
              [⟨"markets_offset_40_limit_20.jsonl", 5⟩,
               ⟨"markets_offset_60_limit_20.jsonl", 0⟩,
               ⟨"other.txt", 9⟩], o ≤ m)
        ∧ get_starting_offset
            [⟨"markets_offset_40_limit_20.jsonl", 5⟩,
             ⟨"markets_offset_60_limit_20.jsonl", 0⟩,
             ⟨"other.txt", 9⟩] 20 = (m : Int) + 20 :=
  ⟨by decide,
   (get_starting_offset_spec
      [⟨"markets_offset_40_limit_20.jsonl", 5⟩,
       ⟨"markets_offset_60_limit_20.jsonl", 0⟩,
       ⟨"other.txt", 9⟩] 20).2 (by decide)⟩

/-- C4 counterexample: in `save_batch_jsonl`, a non-`IOError` exception raised
during the write (after the temp file came into existence — e.g. a
`UnicodeEncodeError` from `json.dump`) hits the generic `except Exception`
branch, which returns `False` without removing the temp file: the failed
save leaves the temp file behind. -/
theorem save_batch_leaves_temp_on_non_io_failure :
    (save_batch_jsonl true (.otherErr true) .ok
        "markets_offset_0_limit_20.jsonl.tmp" "markets_offset_0_limit_20.jsonl"
        []).2 = false
    ∧ "markets_offset_0_limit_20.jsonl.tmp" ∈
        (save_batch_jsonl true (.otherErr true) .ok
          "markets_offset_0_limit_20.jsonl.tmp" "markets_offset_0_limit_20.jsonl"
          []).1 := by
  decide

/-- The write/rename failures whose handler in `save_batch_jsonl` performs the
temp-file cleanup: exactly the `IOError` paths. -/
def ioFailurePath (w : WriteStep) (r : RenameStep) : Bool :=
  match w with
  | .ioErr _ => true
  | .ok => (match r with | .ioErr => true | _ => false)
  | .otherErr _ => false

/-- C4 amended: every save writes to a temp path and renames it into place —
on success the final file exists and the temp file does not. On failure,
`save_event_details` and `save_price_history` always remove the temp file;
`save_batch_jsonl` removes it exactly on its `IOError` paths (its generic
exception branch does not clean up). -/
theorem save_temp_cleanup (valid : Bool) (w : WriteStep) (r : RenameStep)
    (tmp fin : String) (fs : List String)
    (hne : tmp ≠ fin) (hts : tmp ∉ fs) :
    ((save_event_details valid w r tmp fin fs).2 = false →
        tmp ∉ (save_event_details valid w r tmp fin fs).1)
    ∧ ((save_event_details valid w r tmp fin fs).2 = true →
        fin ∈ (save_event_details valid w r tmp fin fs).1
        ∧ tmp ∉ (save_event_details valid w r tmp fin fs).1)
    ∧ ((save_price_history valid w r tmp fin fs).2 = false →
        tmp ∉ (save_price_history valid w r tmp fin fs).1)
    ∧ ((save_batch_jsonl valid w r tmp fin fs).2 = false →
        ioFailurePath w r = true →
        tmp ∉ (save_batch_jsonl valid w r tmp fin fs).1)
    ∧ ((save_batch_jsonl valid w r tmp fin fs).2 = true →
        fin ∈ (save_batch_jsonl valid w r tmp fin fs).1
        ∧ tmp ∉ (save_batch_jsonl valid w r tmp fin fs).1) := by
  cases valid <;> rcases w with _ | c | c <;> cases r <;>
    simp_all [save_event_details, save_price_history, save_batch_jsonl,
      ioFailurePath, hne, hts]

/-- Witness for C4's amended statement at a concrete failing save. -/
theorem save_temp_cleanup_witness :
    ("a.tmp" : String) ≠ "a.json"
    ∧ ("a.tmp" : String) ∉ (["b.json"] : List String)
    ∧ ((save_event_details true (.otherErr true) .ok "a.tmp" "a.json"
          ["b.json"]).2 = false →
        "a.tmp" ∉ (save_event_details true (.otherErr true) .ok "a.tmp" "a.json"
          ["b.json"]).1) :=
  ⟨by decide, by decide,
   (save_temp_cleanup true (.otherErr true) .ok "a.tmp" "a.json" ["b.json"]
      (by decide) (by decide)).1⟩

/-- C6: on the series [(t 0, p 1.0), (t 60, p 1.0), (t 120, p 1.0)]
`analyze_file` reports 3 points, mean 1.0, standard deviation 0 (the stored
square is 0), the constant-price issue, and delta statistics with
min = max = mean = median = 60 and no irregular-delta entry. -/
theorem analyze_constant_three_point_series :
    ∃ res,
      analyze_file fromtimestampOk (.ok (.vdict [("history", .vlist
          [.vdict [("t", .vint 0), ("p", .vfloat 1)],
           .vdict [("t", .vint 60), ("p", .vfloat 1)],
           .vdict [("t", .vint 120), ("p", .vfloat 1)]])]))
        = .ok res
      ∧ res.num_points = 3
      ∧ res.mean_price = some 1
      ∧ res.std_dev_price_sq = some 0
      ∧ Issue.constantPrice ∈ res.issues
      ∧ res.time_delta_stats = some ⟨60, 60, 60, 60, 2, []⟩ := by
  refine ⟨⟨3, some 1, some 0, some 0, some 120, some ⟨60, 60, 60, 60, 2, []⟩,
    [.constantPrice, .veryFewPoints 3]⟩, ?_, rfl, rfl, rfl, by decide, rfl⟩
  show Except.ok (analyzeHistory fromtimestampOk _) = _
  refine congrArg Except.ok ?_
  simp +decide only [analyzeHistory, parsePoints, dictGet, pyFloat, pyInt,
    intListMin, intListMax, successiveDeltas, medianInts, sortInts,
    insertSorted, non60Deltas, deltaCounts, dedupFirst, dedupFirstGo, countOcc,
    fromtimestampOk, ratMean, sampleVariance, round2, roundHalfEven,
    List.isEmpty, List.foldl, List.sum, List.length, List.map, List.filter,
    List.foldr, List.getD, List.get?]
  norm_num
  rw [show Rat.floor (6000 : Rat) = 6000 from rfl]
  norm_num

/-- An item succeeded. -/
def outcomeIsSuccess : FetchOutcome → Bool
  | .success => true
  | _ => false

@[simp] theorem isSuccess_success : outcomeIsSuccess .success = true := rfl

@[simp] theorem isSuccess_fetchErr : outcomeIsSuccess .fetchErr = false := rfl

@[simp] theorem isSuccess_saveErr : outcomeIsSuccess .saveErr = false := rfl

@[simp] theorem isSuccess_raised : outcomeIsSuccess .raised = false := rfl

@[simp] theorem isFetchFailure_success : outcomeIsFetchFailure .success = false := rfl

@[simp] theorem isFetchFailure_fetchErr : outcomeIsFetchFailure .fetchErr = true := rfl

@[simp] theorem isFetchFailure_saveErr : outcomeIsFetchFailure .saveErr = false := rfl

@[simp] theorem isFetchFailure_raised : outcomeIsFetchFailure .raised = true := rfl

@[simp] theorem isSaveFailure_success : outcomeIsSaveFailure .success = false := rfl

@[simp] theorem isSaveFailure_fetchErr : outcomeIsSaveFailure .fetchErr = false := rfl

@[simp] theorem isSaveFailure_saveErr : outcomeIsSaveFailure .saveErr = true := rfl

@[simp] theorem isSaveFailure_raised : outcomeIsSaveFailure .raised = false := rfl

theorem phAggregate_char (l : List (String × FetchOutcome)) :
    ∀ s : PHSummary,
      (l.foldl phStep s).success_count
          = s.success_count + (l.filter (fun it => outcomeIsSuccess it.2)).length
      ∧ (l.foldl phStep s).fetch_error_count
          = s.fetch_error_count + (l.filter (fun it => outcomeIsFetchFailure it.2)).length
      ∧ (l.foldl phStep s).save_error_count
          = s.save_error_count + (l.filter (fun it => outcomeIsSaveFailure it.2)).length
      ∧ (l.foldl phStep s).fetch_error_ids
          = s.fetch_error_ids ++ (l.filter (fun it => outcomeIsFetchFailure it.2)).map Prod.fst
      ∧ (l.foldl phStep s).save_error_ids
          = s.save_error_ids ++ (l.filter (fun it => outcomeIsSaveFailure it.2)).map Prod.fst := by
  induction l with
  | nil => intro s; simp
  | cons it rest ih =>
    intro s
    obtain ⟨i1, i2, i3, i4, i5⟩ := ih (phStep s it)
    rcases it with ⟨id, o⟩
    cases o <;>
      refine ⟨?_, ?_, ?_, ?_, ?_⟩ <;>
      simp only [List.foldl_cons, i1, i2, i3, i4, i5] <;>
      (try simp [phStep]) <;>
      (try omega)

theorem evAggregate_char (l : List (String × FetchOutcome)) :
    ∀ s : EvSummary,
      (l.foldl evStep s).processed_count
          = s.processed_count + (l.filter (fun it => outcomeIsSuccess it.2)).length
      ∧ (l.foldl evStep s).error_count
          = s.error_count + (l.filter (fun it => outcomeIsFetchFailure it.2)).length
            + (l.filter (fun it => outcomeIsSaveFailure it.2)).length
      ∧ (l.foldl evStep s).fetch_errors
          = s.fetch_errors ++ (l.filter (fun it => outcomeIsFetchFailure it.2)).map Prod.fst
      ∧ (l.foldl evStep s).save_errors
          = s.save_errors ++ (l.filter (fun it => outcomeIsSaveFailure it.2)).map Prod.fst := by
  induction l with
  | nil => intro s; simp
  | cons it rest ih =>
    intro s
    obtain ⟨i1, i2, i3, i4⟩ := ih (evStep s it)
    rcases it with ⟨id, o⟩
    cases o <;>
      refine ⟨?_, ?_, ?_, ?_⟩ <;>
      simp only [List.foldl_cons, i1, i2, i3, i4] <;>
      (try simp [evStep]) <;>
      (try omega)

theorem outcome_partition (l : List (String × FetchOutcome)) :
    (l.filter (fun it => outcomeIsSuccess it.2)).length
      + (l.filter (fun it => outcomeIsFetchFailure it.2)).length
      + (l.filter (fun it => outcomeIsSaveFailure it.2)).length = l.length := by
  induction l with
  | nil => simp
  | cons it rest ih =>
    rcases it with ⟨id, o⟩
    cases o <;> simp [List.filter_cons] <;> omega

/-- C5: over any completion order of the submitted items (each with exactly one
outcome, IDs distinct), the end-of-run summary of both parallel downloaders
counts exactly N - M - K successes, M fetch failures (a raised fault counts
as a fetch failure for its item) and K save failures, where M and K are the
numbers of fetch-failed and save-failed items; the fetch-error and save-error
ID lists have total length M + K and are disjoint; every submitted item
contributes exactly one outcome (the three buckets partition the items), so
one item's fault never suppresses the processing of the others. -/
theorem parallel_summary_counts (items completed : List (String × FetchOutcome))
    (hperm : completed.Perm items) (hnodup : (items.map Prod.fst).Nodup) :
    (phAggregate completed).success_count
        = items.length - (items.filter (fun it => outcomeIsFetchFailure it.2)).length
          - (items.filter (fun it => outcomeIsSaveFailure it.2)).length
    ∧ (phAggregate completed).fetch_error_count
        = (items.filter (fun it => outcomeIsFetchFailure it.2)).length
    ∧ (phAggregate completed).save_error_count
        = (items.filter (fun it => outcomeIsSaveFailure it.2)).length
    ∧ (phAggregate completed).fetch_error_ids.length
        + (phAggregate completed).save_error_ids.length
        = (items.filter (fun it => outcomeIsFetchFailure it.2)).length
          + (items.filter (fun it => outcomeIsSaveFailure it.2)).length
    ∧ (∀ id ∈ (phAggregate completed).fetch_error_ids,
        id ∉ (phAggregate completed).save_error_ids)
    ∧ (phAggregate completed).success_count
        + (phAggregate completed).fetch_error_count
        + (phAggregate completed).save_error_count = items.length
    ∧ (evAggregate completed).processed_count
        = items.length - (items.filter (fun it => outcomeIsFetchFailure it.2)).length
          - (items.filter (fun it => outcomeIsSaveFailure it.2)).length
    ∧ (evAggregate completed).fetch_errors.length
        = (items.filter (fun it => outcomeIsFetchFailure it.2)).length
    ∧ (evAggregate completed).save_errors.length
        = (items.filter (fun it => outcomeIsSaveFailure it.2)).length
    ∧ (∀ id ∈ (evAggregate completed).fetch_errors,
        id ∉ (evAggregate completed).save_errors) := by
  obtain ⟨p1, p2, p3, p4, p5⟩ := phAggregate_char completed ⟨0, 0, 0, [], []⟩
  obtain ⟨e1, e2, e3, e4⟩ := evAggregate_char completed ⟨0, 0, [], []⟩
  have hS : (completed.filter (fun it => outcomeIsSuccess it.2)).length
      = (items.filter (fun it => outcomeIsSuccess it.2)).length :=
    (hperm.filter _).length_eq
  have hM : (completed.filter (fun it => outcomeIsFetchFailure it.2)).length
      = (items.filter (fun it => outcomeIsFetchFailure it.2)).length :=
    (hperm.filter _).length_eq
  have hK : (completed.filter (fun it => outcomeIsSaveFailure it.2)).length
      = (items.filter (fun it => outcomeIsSaveFailure it.2)).length :=
    (hperm.filter _).length_eq
  have hpart := outcome_partition items
  have hlen : completed.length = items.length := hperm.length_eq
  have hcompNodup : (completed.map Prod.fst).Nodup :=
    ((hperm.map Prod.fst).nodup_iff).mpr hnodup
  have hinj := List.inj_on_of_nodup_map hcompNodup
  have hdisj : ∀ id, id ∈ (completed.filter (fun it => outcomeIsFetchFailure it.2)).map Prod.fst →
      id ∉ (completed.filter (fun it => outcomeIsSaveFailure it.2)).map Prod.fst := by
    intro id hf hs
    obtain ⟨x, hxmem, hxid⟩ := List.mem_map.mp hf
    obtain ⟨y, hymem, hyid⟩ := List.mem_map.mp hs
    obtain ⟨hxc, hxp⟩ := List.mem_filter.mp hxmem
    obtain ⟨hyc, hyp⟩ := List.mem_filter.mp hymem
    have hxy : x = y := hinj hxc hyc (hxid.trans hyid.symm)
    rw [hxy] at hxp
    cases hy2 : y.2 <;> rw [hy2] at hxp hyp <;>
      simp [outcomeIsFetchFailure, outcomeIsSaveFailure] at hxp hyp
  have P1 : (phAggregate completed).success_count
      = (items.filter (fun it => outcomeIsSuccess it.2)).length := by
    unfold phAggregate
    rw [p1, hS]
    simp
  have P2 : (phAggregate completed).fetch_error_count
      = (items.filter (fun it => outcomeIsFetchFailure it.2)).length := by
    unfold phAggregate
    rw [p2, hM]
    simp
  have P3 : (phAggregate completed).save_error_count
      = (items.filter (fun it => outcomeIsSaveFailure it.2)).length := by
    unfold phAggregate
    rw [p3, hK]
    simp
  have P4 : (phAggregate completed).fetch_error_ids
      = (completed.filter (fun it => outcomeIsFetchFailure it.2)).map Prod.fst := by
    unfold phAggregate
    rw [p4]
    simp
  have P5 : (phAggregate completed).save_error_ids
      = (completed.filter (fun it => outcomeIsSaveFailure it.2)).map Prod.fst := by
    unfold phAggregate
    rw [p5]
    simp
  have E1 : (evAggregate completed).processed_count
      = (items.filter (fun it => outcomeIsSuccess it.2)).length := by
    unfold evAggregate
    rw [e1, hS]
    simp
  have E3 : (evAggregate completed).fetch_errors
      = (completed.filter (fun it => outcomeIsFetchFailure it.2)).map Prod.fst := by
    unfold evAggregate
    rw [e3]
    simp
  have E4 : (evAggregate completed).save_errors
      = (completed.filter (fun it => outcomeIsSaveFailure it.2)).map Prod.fst := by
    unfold evAggregate
    rw [e4]
    simp
  refine ⟨?_, P2, P3, ?_, ?_, ?_, ?_, ?_, ?_, ?_⟩
  · rw [P1]
    omega
  · rw [P4, P5]
    simp [hM, hK]
  · intro id hf
    rw [P4] at hf
    rw [P5]
    exact hdisj id hf
  · rw [P1, P2, P3]
    omega
  · rw [E1]
    omega
  · rw [E3]
    simp [hM]
  · rw [E4]
    simp [hK]
  · intro id hf
    rw [E3] at hf
    rw [E4]
    exact hdisj id hf

/-- Witness for C5: three items (one success, one fetch failure via a raised
fault, one save failure) completing in a different order than submitted. -/
theorem parallel_summary_counts_witness :
    ([("b", FetchOutcome.raised), ("c", FetchOutcome.saveErr),
        ("a", FetchOutcome.success)].Perm
      [("a", FetchOutcome.success), ("b", FetchOutcome.raised),
        ("c", FetchOutcome.saveErr)])
    ∧ (([("a", FetchOutcome.success), ("b", FetchOutcome.raised),
        ("c", FetchOutcome.saveErr)].map Prod.fst).Nodup)
    ∧ (phAggregate [("b", FetchOutcome.raised), ("c", FetchOutcome.saveErr),
        ("a", FetchOutcome.success)]).success_count
        = ([("a", FetchOutcome.success), ("b", FetchOutcome.raised),
            ("c", FetchOutcome.saveErr)] : List (String × FetchOutcome)).length
          - ([("a", FetchOutcome.success), ("b", FetchOutcome.raised),
              ("c", FetchOutcome.saveErr)].filter
              (fun it => outcomeIsFetchFailure it.2)).length
          - ([("a", FetchOutcome.success), ("b", FetchOutcome.raised),
              ("c", FetchOutcome.saveErr)].filter
              (fun it => outcomeIsSaveFailure it.2)).length :=
  ⟨by decide, by decide,
   (parallel_summary_counts
      [("a", FetchOutcome.success), ("b", FetchOutcome.raised),
        ("c", FetchOutcome.saveErr)]
      [("b", FetchOutcome.raised), ("c", FetchOutcome.saveErr),
        ("a", FetchOutcome.success)]
      (by decide) (by decide)).1⟩

theorem marketFetchLoop_char {α : Type} (f : Nat → Option (List α)) (s : Nat → Bool)
    (L : Nat) :
    ∀ fuel st : Nat,
      (∀ i (hi : i < (marketFetchLoop f s L fuel st).1.length),
          (marketFetchLoop f s L fuel st).1.get ⟨i, hi⟩ = st + i * L)
      ∧ (∀ i, i + 1 < (marketFetchLoop f s L fuel st).1.length →
          s (st + i * L) = true ∧ ∃ pg, f (st + i * L) = some pg ∧ pg ≠ [])
      ∧ ((marketFetchLoop f s L fuel st).2 = .saveError →
          ∃ last, (marketFetchLoop f s L fuel st).1.getLast? = some last
            ∧ s last = false
            ∧ ∀ off ∈ (marketFetchLoop f s L fuel st).1, off ≤ last)
      ∧ ((marketFetchLoop f s L fuel st).2 = .done →
          ∃ last, (marketFetchLoop f s L fuel st).1.getLast? = some last
            ∧ f last = some [])
      ∧ ((marketFetchLoop f s L fuel st).2 = .fetchError →
          ∃ last, (marketFetchLoop f s L fuel st).1.getLast? = some last
            ∧ f last = none) := by
  intro fuel
  induction fuel with
  | zero =>
    intro st
    refine ⟨?_, ?_, ?_, ?_, ?_⟩ <;> simp [marketFetchLoop]
  | succ n ih =>
    intro st
    cases hf : f st with
    | none =>
      have hred : marketFetchLoop f s L (n + 1) st = ([st], .fetchError) := by
        simp [marketFetchLoop, hf]
      rw [hred]
      refine ⟨?_, ?_, ?_, ?_, ?_⟩
      · intro i hi
        have h0 : i = 0 := by simp at hi; omega
        subst h0
        simp
      · intro i hi
        simp at hi
      · intro h; cases h
      · intro h; cases h
      · intro _
        exact ⟨st, rfl, hf⟩
    | some page =>
      cases page with
      | nil =>
        have hred : marketFetchLoop f s L (n + 1) st = ([st], .done) := by
          simp [marketFetchLoop, hf]
        rw [hred]
        refine ⟨?_, ?_, ?_, ?_, ?_⟩
        · intro i hi
          have h0 : i = 0 := by simp at hi; omega
          subst h0
          simp
        · intro i hi
          simp at hi
        · intro h; cases h
        · intro _
          exact ⟨st, rfl, hf⟩
        · intro h; cases h
      | cons p ps =>
        cases hs : s st with
        | false =>
          have hred : marketFetchLoop f s L (n + 1) st = ([st], .saveError) := by
            simp [marketFetchLoop, hf, hs]
          rw [hred]
          refine ⟨?_, ?_, ?_, ?_, ?_⟩
          · intro i hi
            have h0 : i = 0 := by simp at hi; omega
            subst h0
            simp
          · intro i hi
            simp at hi
          · intro _
            exact ⟨st, rfl, hs, by simp⟩
          · intro h; cases h
          · intro h; cases h
        | true =>
          obtain ⟨g1, g2, g3, g4, g5⟩ := ih (st + L)
          have hred : marketFetchLoop f s L (n + 1) st
              = (st :: (marketFetchLoop f s L n (st + L)).1,
                 (marketFetchLoop f s L n (st + L)).2) := by
            simp [marketFetchLoop, hf, hs]
          have hshift : ∀ i : Nat, st + L + i * L = st + (i + 1) * L := by
            intro i
            rw [Nat.succ_mul]
            omega
          have hmemT : ∀ x ∈ (marketFetchLoop f s L n (st + L)).1, st + L ≤ x := by
            intro x hx
            obtain ⟨j, hj⟩ := List.mem_iff_get.mp hx
            have := g1 j j.isLt
            rw [hj] at this
            omega
          rw [hred]

          refine ⟨?_, ?_, ?_, ?_, ?_⟩
          · intro i hi
            cases i with
            | zero => simp
            | succ j =>
              have hj : j < (marketFetchLoop f s L n (st + L)).1.length := by
                simpa using hi
              have := g1 j hj
              simp only [List.get_cons_succ]
              rw [this, hshift j]
          · intro i hi
            cases i with
            | zero =>
              exact ⟨by simpa using hs, ⟨p :: ps, by simpa using hf, by simp⟩⟩
            | succ j =>
              have hj : j + 1 < (marketFetchLoop f s L n (st + L)).1.length := by
                simpa using hi
              obtain ⟨hsj, pg, hpg, hpgne⟩ := g2 j hj
              rw [hshift j] at hsj hpg
              exact ⟨hsj, pg, hpg, hpgne⟩
          · intro h
            obtain ⟨last, hlast, hsl, hbound⟩ := g3 h
            have hTne : (marketFetchLoop f s L n (st + L)).1 ≠ [] := by
              intro he
              rw [he] at hlast
              cases hlast
            obtain ⟨t, T, hT⟩ := List.exists_cons_of_ne_nil hTne
            refine ⟨last, ?_, hsl, ?_⟩
            · rw [hT] at hlast ⊢
              rw [List.getLast?_cons_cons]
              exact hlast
            · intro off hoff
              rcases List.mem_cons.mp hoff with h | hoff
              · rw [h]
                have hlmem : last ∈ (marketFetchLoop f s L n (st + L)).1 :=
                  List.mem_of_mem_getLast? (by simp [hlast])
                have hge := hmemT last hlmem
                omega
              · exact hbound off hoff
          · intro h
            obtain ⟨last, hlast, hfl⟩ := g4 h
            have hTne : (marketFetchLoop f s L n (st + L)).1 ≠ [] := by
              intro he
              rw [he] at hlast
              cases hlast
            obtain ⟨t, T, hT⟩ := List.exists_cons_of_ne_nil hTne
            refine ⟨last, ?_, hfl⟩
            rw [hT] at hlast ⊢
            rw [List.getLast?_cons_cons]
            exact hlast
          · intro h
            obtain ⟨last, hlast, hfl⟩ := g5 h
            have hTne : (marketFetchLoop f s L n (st + L)).1 ≠ [] := by
              intro he
              rw [he] at hlast
              cases hlast
            obtain ⟨t, T, hT⟩ := List.exists_cons_of_ne_nil hTne
            refine ⟨last, ?_, hfl⟩
            rw [hT] at hlast ⊢
            rw [List.getLast?_cons_cons]
            exact hlast

theorem analyzeHistory_shape (fmtOk : Int → Bool) (history : List PyVal) :
    (history.isEmpty = true
      ∧ analyzeHistory fmtOk history = { issues := [.historyEmpty] })
    ∨ (history.isEmpty = false ∧ (parsePoints history).1.isEmpty = true
      ∧ analyzeHistory fmtOk history =
          { num_points := 0,
            issues := (if 0 < (parsePoints history).2.2
                then [Issue.malformedPoints (parsePoints history).2.2] else [])
              ++ [.noValidPoints] })
    ∨ (history.isEmpty = false ∧ (parsePoints history).1.isEmpty = false
      ∧ ∃ sdIss tsIss,
          (sdIss = [Issue.stdevUndefined] ∨ sdIss = [Issue.constantPrice] ∨ sdIss = [])
          ∧ (tsIss = [] ∨ tsIss = [Issue.timeRangeError])
          ∧ (analyzeHistory fmtOk history).issues =
              ((if 0 < (parsePoints history).2.2
                then [Issue.malformedPoints (parsePoints history).2.2] else [])
                ++ sdIss ++ tsIss)
                ++ (if (parsePoints history).1.length < 5
                    then [Issue.veryFewPoints (parsePoints history).1.length] else [])
          ∧ (analyzeHistory fmtOk history).mean_price
              = some (ratMean (parsePoints history).1)
          ∧ (analyzeHistory fmtOk history).num_points = (parsePoints history).1.length
          ∧ (fmtOk (intListMin (parsePoints history).2.1) = false →
              tsIss = [Issue.timeRangeError]
              ∧ (analyzeHistory fmtOk history).min_time = none
              ∧ (analyzeHistory fmtOk history).max_time = none)) := by
  by_cases hE : history.isEmpty
  · exact Or.inl ⟨hE, by simp [analyzeHistory, hE]⟩
  · rw [Bool.not_eq_true] at hE
    by_cases hP : (parsePoints history).1.isEmpty
    · refine Or.inr (Or.inl ⟨hE, hP, ?_⟩)
      simp [analyzeHistory, hE, hP]
    · rw [Bool.not_eq_true] at hP
      refine Or.inr (Or.inr ⟨hE, hP,
        (if (parsePoints history).1.length < 2 then [Issue.stdevUndefined]
         else if sampleVariance (parsePoints history).1 = 0
           then [Issue.constantPrice] else []),
        (if fmtOk (intListMin (parsePoints history).2.1) then
           (if fmtOk (intListMax (parsePoints history).2.1) then []
            else [Issue.timeRangeError])
         else [Issue.timeRangeError]), ?_, ?_, ?_, ?_, ?_, ?_⟩)
      · split_ifs <;> simp
      · split_ifs <;> simp
      · simp only [analyzeHistory, hE, hP, Bool.false_eq_true, if_false]
        split_ifs <;> simp
      · simp [analyzeHistory, hE, hP]
      · simp [analyzeHistory, hE, hP]
      · intro hmin
        refine ⟨by simp [hmin], ?_, ?_⟩ <;> simp [analyzeHistory, hE, hP, hmin]

/-- C9 counterexample: a history whose single point is malformed has zero
valid points — fewer than 5 — yet the result records no very-few-data-points
issue (the source returns early with the no-valid-data issue instead). -/
theorem very_few_issue_missed_at_zero_valid :
    analyze_file fromtimestampOk (.ok (.vdict [("history", .vlist [.vint 0])]))
      = .ok { num_points := 0, issues := [.malformedPoints 1, .noValidPoints] }
    ∧ validPointCount [.vint 0] < 5
    ∧ hasVeryFewIssue [Issue.malformedPoints 1, Issue.noValidPoints] = false := by
  refine ⟨rfl, ?_, ?_⟩ <;> decide

/-- C9 amended: for every price series (a parsed object whose `history` is a
list), the very-few-data-points issue is recorded exactly when the series
has at least one and fewer than 5 valid points; with zero valid points the
function returns early (no-valid-data or empty-history issue) and does not
record it. -/
theorem very_few_issue_iff (fmtOk : Int → Bool)
    (entries : List (String × PyVal)) (pts : List PyVal)
    (h : dictGet entries "history" = some (.vlist pts)) :
    ∀ res, analyze_file fmtOk (.ok (.vdict entries)) = .ok res →
      (hasVeryFewIssue res.issues = true ↔
        1 ≤ validPointCount pts ∧ validPointCount pts < 5) := by
  intro res hres
  have hres' : res = analyzeHistory fmtOk pts := by
    simp only [analyze_file, h] at hres
    exact (Except.ok.inj hres).symm
  subst hres'
  rcases analyzeHistory_shape fmtOk pts with ⟨hE, heq⟩ | ⟨hE, hP, heq⟩ |
    ⟨hE, hP, sdIss, tsIss, hsd, hts, hiss, _, _, _⟩
  · rw [heq]
    have : pts = [] := List.isEmpty_iff.mp hE
    subst this
    simp [hasVeryFewIssue, validPointCount, parsePoints]
  · rw [heq]
    have h0 : validPointCount pts = 0 := by
      simpa [validPointCount, List.isEmpty_iff_length_eq_zero] using hP
    constructor
    · intro habs
      exfalso
      revert habs
      split_ifs <;> simp [hasVeryFewIssue]
    · intro ⟨h1, _⟩
      omega
  · have h1 : 1 ≤ validPointCount pts := by
      simp only [validPointCount]
      rcases hq : (parsePoints pts).1 with _ | ⟨a, as⟩
      · rw [hq] at hP
        simp at hP
      · simp
    rw [hiss]
    by_cases hlt : (parsePoints pts).1.length < 5
    · rw [if_pos hlt]
      constructor
      · intro _
        exact ⟨h1, by simpa [validPointCount] using hlt⟩
      · intro _
        simp [hasVeryFewIssue]
    · rw [if_neg hlt]
      constructor
      · intro hany
        exfalso
        rcases hsd with rfl | rfl | rfl <;> rcases hts with rfl | rfl <;>
          revert hany <;> split_ifs <;> simp [hasVeryFewIssue]
      · intro hc
        exact absurd (by simpa [validPointCount] using hc.2) hlt

/-- Witness for C9's amended statement: a series of three valid points records
the very-few issue; its hypotheses are discharged at the concrete input. -/
theorem very_few_issue_iff_witness :
    hasVeryFewIssue (analyzeHistory fromtimestampOk
        [PyVal.vdict [("t", .vint 0), ("p", .vfloat 1)]]).issues = true :=
  (very_few_issue_iff fromtimestampOk
      [("history", .vlist [PyVal.vdict [("t", .vint 0), ("p", .vfloat 1)]])]
      [PyVal.vdict [("t", .vint 0), ("p", .vfloat 1)]] rfl
      (analyzeHistory fromtimestampOk
        [PyVal.vdict [("t", .vint 0), ("p", .vfloat 1)]]) rfl).mpr
    (by decide)

theorem mem_newFirstIds (ids : List String) :
    ∀ (seen : List String) (x : String),
      x ∈ newFirstIds seen ids ↔ x ∈ ids ∧ x ∉ seen := by
  induction ids with
  | nil => intro seen x; simp [newFirstIds]
  | cons id rest ih =>
    intro seen x
    by_cases hm : id ∈ seen
    · rw [newFirstIds, if_pos hm, ih]
      constructor
      · rintro ⟨hx, hns⟩
        exact ⟨List.mem_cons_of_mem _ hx, hns⟩
      · rintro ⟨hx, hns⟩
        rcases List.mem_cons.mp hx with rfl | hx
        · exact absurd hm hns
        · exact ⟨hx, hns⟩
    · rw [newFirstIds, if_neg hm]
      constructor
      · intro hx
        rcases List.mem_cons.mp hx with rfl | hx
        · exact ⟨List.mem_cons_self _ _, hm⟩
        · obtain ⟨h1, h2⟩ := (ih (id :: seen) x).mp hx
          exact ⟨List.mem_cons_of_mem _ h1,
            fun hs => h2 (List.mem_cons_of_mem _ hs)⟩
      · rintro ⟨hx, hns⟩
        rcases List.mem_cons.mp hx with rfl | hx
        · exact List.mem_cons_self _ _
        · by_cases hxid : x = id
          · exact hxid ▸ List.mem_cons_self _ _
          · exact List.mem_cons_of_mem _ ((ih (id :: seen) x).mpr
              ⟨hx, fun hs => (List.mem_cons.mp hs).elim hxid hns⟩)

theorem newFirstIds_nodup (ids : List String) :
    ∀ seen : List String, (newFirstIds seen ids).Nodup := by
  induction ids with
  | nil => intro seen; simp [newFirstIds]
  | cons id rest ih =>
    intro seen
    by_cases hm : id ∈ seen
    · rw [newFirstIds, if_pos hm]
      exact ih seen
    · rw [newFirstIds, if_neg hm]
      refine List.Nodup.cons ?_ (ih (id :: seen))
      intro hmem
      exact ((mem_newFirstIds rest (id :: seen) id).mp hmem).2
        (List.mem_cons_self _ _)

theorem newFirstIds_congr (ids : List String) :
    ∀ seen1 seen2 : List String, (∀ x, x ∈ seen1 ↔ x ∈ seen2) →
      newFirstIds seen1 ids = newFirstIds seen2 ids := by
  induction ids with
  | nil => intro _ _ _; rfl
  | cons id rest ih =>
    intro seen1 seen2 hmem
    by_cases hm : id ∈ seen1
    · rw [newFirstIds, if_pos hm, newFirstIds, if_pos ((hmem id).mp hm)]
      exact ih seen1 seen2 hmem
    · rw [newFirstIds, if_neg hm, newFirstIds,
        if_neg (fun hc => hm ((hmem id).mpr hc))]
      refine congrArg (id :: ·) (ih _ _ ?_)
      intro x
      simp [List.mem_cons, hmem x]

theorem newFirstIds_append (a b : List String) :
    ∀ seen : List String,
      newFirstIds seen (a ++ b)
        = newFirstIds seen a ++ newFirstIds (a ++ seen) b := by
  induction a with
  | nil => intro seen; simp [newFirstIds]
  | cons id rest ih =>
    intro seen
    by_cases hm : id ∈ seen
    · rw [List.cons_append, newFirstIds, if_pos hm, newFirstIds, if_pos hm,
        ih seen]
      refine congrArg _ (newFirstIds_congr b _ _ ?_)
      intro x
      constructor
      · intro hx
        rcases List.mem_append.mp hx with hx | hx
        · exact List.mem_append.mpr (Or.inl (List.mem_cons_of_mem _ hx))
        · exact List.mem_append.mpr (Or.inr hx)
      · intro hx
        rcases List.mem_append.mp hx with hx | hx
        · rcases List.mem_cons.mp hx with rfl | hx
          · exact List.mem_append.mpr (Or.inr hm)
          · exact List.mem_append.mpr (Or.inl hx)
        · exact List.mem_append.mpr (Or.inr hx)
    · rw [List.cons_append, newFirstIds, if_neg hm, newFirstIds, if_neg hm,
        ih (id :: seen), List.cons_append]
      refine congrArg _ (congrArg _ (newFirstIds_congr b _ _ ?_))
      intro x
      constructor
      · intro hx
        rcases List.mem_append.mp hx with hx | hx
        · exact List.mem_cons_of_mem _ (List.mem_append.mpr (Or.inl hx))
        · rcases List.mem_cons.mp hx with rfl | hx
          · exact List.mem_cons_self _ _
          · exact List.mem_cons_of_mem _ (List.mem_append.mpr (Or.inr hx))
      · intro hx
        rcases List.mem_cons.mp hx with rfl | hx
        · exact List.mem_append.mpr (Or.inr (List.mem_cons_self _ _))
        · rcases List.mem_append.mp hx with hx | hx
          · exact List.mem_append.mpr (Or.inl hx)
          · exact List.mem_append.mpr (Or.inr (List.mem_cons_of_mem _ hx))

theorem processEventId_not_mem (store : String → EventFile) (s : JoinState)
    (eid : String) (h : eid ∉ s.processed_event_ids) :
    (processEventId store s eid).attemptedEventIds = s.attemptedEventIds ++ [eid]
    ∧ (processEventId store s eid).processed_event_ids
        = s.processed_event_ids ++ [eid]
    ∧ (processEventId store s eid).writtenEventIds
        = s.writtenEventIds ++ (if loadEmitsRow store eid then [eid] else [])
    ∧ (processEventId store s eid).marketRows = s.marketRows
    ∧ (processEventId store s eid).eventRows.length
        = s.eventRows.length + (if loadEmitsRow store eid then 1 else 0)
    ∧ (processEventId store s eid).market_parse_error_count
        = s.market_parse_error_count := by
  unfold processEventId
  rw [if_neg h]
  cases hst : store eid with
  | absent => simp [loadEmitsRow, hst]
  | parseError => simp [loadEmitsRow, hst]
  | object e =>
    by_cases he : e.isEmpty
    · simp [loadEmitsRow, hst, he]
    · simp [loadEmitsRow, hst, he]

theorem processIds_char (store : String → EventFile) (ids : List String) :
    ∀ s : JoinState,
      (ids.foldl (processEventId store) s).attemptedEventIds
          = s.attemptedEventIds ++ newFirstIds s.processed_event_ids ids
      ∧ (∀ x, x ∈ (ids.foldl (processEventId store) s).processed_event_ids ↔
          x ∈ s.processed_event_ids ∨ x ∈ ids)
      ∧ (ids.foldl (processEventId store) s).writtenEventIds
          = s.writtenEventIds
            ++ (newFirstIds s.processed_event_ids ids).filter (loadEmitsRow store)
      ∧ (ids.foldl (processEventId store) s).marketRows = s.marketRows
      ∧ (ids.foldl (processEventId store) s).eventRows.length
          = s.eventRows.length
            + ((newFirstIds s.processed_event_ids ids).filter
                (loadEmitsRow store)).length
      ∧ (ids.foldl (processEventId store) s).market_parse_error_count
          = s.market_parse_error_count := by
  induction ids with
  | nil => intro s; simp [newFirstIds]
  | cons id rest ih =>
    intro s
    rw [List.foldl_cons]
    by_cases hm : id ∈ s.processed_event_ids
    · have hstep : processEventId store s id = s := by
        unfold processEventId
        rw [if_pos hm]
      obtain ⟨i1, i2, i3, i4, i5, i6⟩ := ih s
      rw [hstep, newFirstIds, if_pos hm]
      refine ⟨i1, ?_, i3, i4, i5, i6⟩
      intro x
      rw [i2]
      constructor
      · rintro (h1 | h1)
        · exact Or.inl h1
        · exact Or.inr (List.mem_cons_of_mem _ h1)
      · rintro (h1 | h1)
        · exact Or.inl h1
        · rcases List.mem_cons.mp h1 with rfl | h1
          · exact Or.inl hm
          · exact Or.inr h1
    · obtain ⟨p1, p2, p3, p4, p5, p6⟩ := processEventId_not_mem store s id hm
      obtain ⟨i1, i2, i3, i4, i5, i6⟩ := ih (processEventId store s id)
      rw [newFirstIds, if_neg hm]
      have hcongr : newFirstIds (processEventId store s id).processed_event_ids rest
          = newFirstIds (id :: s.processed_event_ids) rest := by
        refine newFirstIds_congr rest _ _ ?_
        intro x
        rw [p2]
        simp [List.mem_append, List.mem_cons]
        tauto
      refine ⟨?_, ?_, ?_, ?_, ?_, ?_⟩
      · rw [i1, p1, hcongr, List.append_assoc]
        rfl
      · intro x
        rw [i2, p2]
        simp only [List.mem_append, List.mem_cons, List.mem_singleton]
        tauto
      · rw [i3, p3, hcongr, List.filter_cons]
        by_cases hl : loadEmitsRow store id
        · simp [hl, List.append_assoc]
        · simp [hl]
      · rw [i4, p4]
      · rw [i5, p5, hcongr, List.filter_cons]
        by_cases hl : loadEmitsRow store id <;> simp [hl] <;> omega
      · rw [i6, p6]

theorem joinRun_char (store : String → EventFile) (price : String → StoredFile)
    (lines : List MarketLine) :
    ∀ s : JoinState,
      (lines.foldl (processMarketLine store price) s).attemptedEventIds
          = s.attemptedEventIds
            ++ newFirstIds s.processed_event_ids (joinAllEventIds lines)
      ∧ (∀ x, x ∈ (lines.foldl (processMarketLine store price) s).processed_event_ids
          ↔ x ∈ s.processed_event_ids ∨ x ∈ joinAllEventIds lines)
      ∧ (lines.foldl (processMarketLine store price) s).writtenEventIds
          = s.writtenEventIds
            ++ (newFirstIds s.processed_event_ids (joinAllEventIds lines)).filter
                (loadEmitsRow store)
      ∧ (lines.foldl (processMarketLine store price) s).marketRows.length
          = s.marketRows.length + (lines.filter isRecordLine).length
      ∧ (lines.foldl (processMarketLine store price) s).eventRows.length
          = s.eventRows.length
            + ((newFirstIds s.processed_event_ids (joinAllEventIds lines)).filter
                (loadEmitsRow store)).length := by
  induction lines with
  | nil => intro s; simp [joinAllEventIds, newFirstIds]
  | cons line rest ih =>
    intro s
    rw [List.foldl_cons]
    cases line with
    | parseError =>
      have hstep : processMarketLine store price s .parseError
          = { s with market_parse_error_count := s.market_parse_error_count + 1 } := rfl
      obtain ⟨i1, i2, i3, i4, i5⟩ :=
        ih { s with market_parse_error_count := s.market_parse_error_count + 1 }
      rw [hstep]
      have hall : joinAllEventIds (MarketLine.parseError :: rest)
          = joinAllEventIds rest := by
        simp [joinAllEventIds]
      rw [hall]
      exact ⟨i1, i2, i3, by simpa [isRecordLine] using i4, i5⟩
    | record entries =>
      have hall : joinAllEventIds (MarketLine.record entries :: rest)
          = marketEventIds entries ++ joinAllEventIds rest := by
        simp [joinAllEventIds]
      rw [hall]
      have hstep : processMarketLine store price s (.record entries)
          = (marketEventIds entries).foldl (processEventId store)
              { s with marketRows := s.marketRows
                  ++ [marketRow entries
                        (String.intercalate "," (marketEventIds entries))
                        (hasNonEmptyHistory price (marketIdStr entries))] } := rfl
      rw [hstep]
      obtain ⟨c1, c2, c3, c4, c5, c6⟩ := processIds_char store (marketEventIds entries)
        { s with marketRows := s.marketRows
            ++ [marketRow entries
                  (String.intercalate "," (marketEventIds entries))
                  (hasNonEmptyHistory price (marketIdStr entries))] }
      obtain ⟨i1, i2, i3, i4, i5⟩ := ih ((marketEventIds entries).foldl
        (processEventId store)
        { s with marketRows := s.marketRows
            ++ [marketRow entries
                  (String.intercalate "," (marketEventIds entries))
                  (hasNonEmptyHistory price (marketIdStr entries))] })
      have hcongr : newFirstIds ((marketEventIds entries).foldl (processEventId store)
            { s with marketRows := s.marketRows
                ++ [marketRow entries
                      (String.intercalate "," (marketEventIds entries))
                      (hasNonEmptyHistory price (marketIdStr entries))] }).processed_event_ids
            (joinAllEventIds rest)
          = newFirstIds (marketEventIds entries ++ s.processed_event_ids)
              (joinAllEventIds rest) := by
        refine newFirstIds_congr _ _ _ ?_
        intro x
        rw [c2]
        simp only [List.mem_append]
        tauto
      rw [newFirstIds_append]
      refine ⟨?_, ?_, ?_, ?_, ?_⟩
      · rw [i1, c1, hcongr]
        simp [List.append_assoc]
      · intro x
        rw [i2, c2]
        simp only [List.mem_append]
        tauto
      · rw [i3, c3, hcongr, List.filter_append]
        simp [List.append_assoc]
      · rw [i4, c4]
        simp [isRecordLine, List.filter_cons]
        omega
      · rw [i5, c5, hcongr, List.filter_append]
        simp only [List.length_append]
        omega

/-- C10: within one run of the join phase, each distinct event ID is probed on
disk at most once: the probed IDs are exactly the distinct linked event IDs
(each once — the probe list is duplicate-free), the processed set ends up
containing every linked ID regardless of whether its load succeeded, failed
to parse, or found no file, and a row is written exactly for the probes
that load a truthy object — so a failed or missing event is never
re-attempted and never emitted when later markets reference the same ID. -/
theorem event_file_probed_once (store : String → EventFile)
    (price : String → StoredFile) (lines : List MarketLine) :
    (create_market_and_event_tsvs store price lines).attemptedEventIds.Nodup
    ∧ (∀ id, id ∈ (create_market_and_event_tsvs store price lines).attemptedEventIds
        ↔ id ∈ joinAllEventIds lines)
    ∧ (∀ id, id ∈ (create_market_and_event_tsvs store price lines).processed_event_ids
        ↔ id ∈ joinAllEventIds lines)
    ∧ (create_market_and_event_tsvs store price lines).writtenEventIds
        = (create_market_and_event_tsvs store price lines).attemptedEventIds.filter
            (loadEmitsRow store) := by
  obtain ⟨j1, j2, j3, j4, j5⟩ :=
    joinRun_char store price lines ⟨[], [], [], [], [], 0, 0, 0⟩
  unfold create_market_and_event_tsvs
  rw [j1, j3]
  simp only [List.nil_append]
  refine ⟨newFirstIds_nodup _ _, ?_, ?_, trivial⟩
  · intro id
    rw [mem_newFirstIds]
    simp
  · intro id
    rw [j2]
    simp

/-- C8: in the concrete scenario — one market linked to event IDs e1 and e2 of
which only e2's file exists, followed by a second market — the run emits one
row per market (two in total), the first market row's event-IDs column is
"e1,e2" (both IDs comma-joined in order), exactly one event row is written
(for e2), and the missing e1 file is only counted (the run continues to the
next market). In general every parsed market record emits exactly one
market row, and event rows are emitted at most once per distinct event ID
(one row per written ID, written IDs duplicate-free). -/
theorem join_market_and_event_rows :
    (joinDemoState.marketRows.length = 2
      ∧ (joinDemoState.marketRows.getD 0 []).getD market_headers.length ""
          = "e1,e2"
      ∧ joinDemoState.eventRows.length = 1
      ∧ joinDemoState.writtenEventIds = ["e2"]
      ∧ joinDemoState.event_file_missing_count = 1)
    ∧ (∀ (store : String → EventFile) (price : String → StoredFile)
        (lines : List MarketLine),
        (create_market_and_event_tsvs store price lines).marketRows.length
          = (lines.filter isRecordLine).length
        ∧ (create_market_and_event_tsvs store price lines).writtenEventIds.Nodup
        ∧ (create_market_and_event_tsvs store price lines).eventRows.length
          = (create_market_and_event_tsvs store price lines).writtenEventIds.length) := by
  constructor
  · refine ⟨?_, ?_, ?_, ?_, ?_⟩ <;> rfl
  · intro store price lines
    obtain ⟨j1, j2, j3, j4, j5⟩ :=
      joinRun_char store price lines ⟨[], [], [], [], [], 0, 0, 0⟩
    unfold create_market_and_event_tsvs
    rw [j3, j4, j5]
    simp only [List.nil_append, List.length_nil, Nat.zero_add]
    exact ⟨trivial, (newFirstIds_nodup _ _).filter _, trivial⟩

/-- C7 counterexample: a readable file whose JSON parses to a valid non-dict
value — here the empty list `[]` — makes `analyze_file` raise an uncaught
`AttributeError` at `data.get("history")` (the statement after the guarded
read block) instead of returning a record. -/
theorem analyze_file_raises_on_non_dict :
    analyze_file fromtimestampOk (.ok (.vlist [])) = .error () := rfl

/-- C7 amended: `analyze_file` raises exactly on readable files whose JSON
parses to a non-dict value; on every other input it returns a record, and
every failure mode degrades to a recorded issue with the affected numeric
fields absent: unreadable file / invalid JSON / read error (issue only),
missing or non-list history, empty history, zero valid points (stats
absent), malformed points (counted in an issue), timestamp formatting
failure (time fields none, issue recorded); whenever the mean is absent the
issue list is non-empty. -/
theorem analyze_file_error_and_degradation (fmtOk : Int → Bool) :
    (∀ inp : FileRead, analyze_file fmtOk inp = .error () ↔
        ∃ j, inp = .ok j ∧ isDictVal j = false)
    ∧ analyze_file fmtOk .fileNotFound = .ok { issues := [.fileNotFound] }
    ∧ analyze_file fmtOk .invalidJson = .ok { issues := [.invalidJson] }
    ∧ analyze_file fmtOk .readError = .ok { issues := [.fileReadError] }
    ∧ (∀ entries, historyIsList entries = false →
        analyze_file fmtOk (.ok (.vdict entries))
          = .ok { issues := [.historyNotList] })
    ∧ (∀ entries pts, dictGet entries "history" = some (.vlist pts) →
        pts.isEmpty = true →
        analyze_file fmtOk (.ok (.vdict entries))
          = .ok { issues := [.historyEmpty] })
    ∧ (∀ entries pts, dictGet entries "history" = some (.vlist pts) →
        pts.isEmpty = false → validPointCount pts = 0 →
        analyze_file fmtOk (.ok (.vdict entries))
          = .ok { num_points := 0,
                  issues := (if 0 < (parsePoints pts).2.2
                      then [Issue.malformedPoints (parsePoints pts).2.2] else [])
                    ++ [.noValidPoints] })
    ∧ (∀ entries pts res, dictGet entries "history" = some (.vlist pts) →
        analyze_file fmtOk (.ok (.vdict entries)) = .ok res →
        0 < (parsePoints pts).2.2 →
        Issue.malformedPoints (parsePoints pts).2.2 ∈ res.issues)
    ∧ (∀ entries pts res, dictGet entries "history" = some (.vlist pts) →
        analyze_file fmtOk (.ok (.vdict entries)) = .ok res →
        (parsePoints pts).1.isEmpty = false →
        fmtOk (intListMin (parsePoints pts).2.1) = false →
        Issue.timeRangeError ∈ res.issues
        ∧ res.min_time = none ∧ res.max_time = none)
    ∧ (∀ inp res, analyze_file fmtOk inp = .ok res →
        res.mean_price = none → res.issues ≠ []) := by
  refine ⟨?_, rfl, rfl, rfl, ?_, ?_, ?_, ?_, ?_, ?_⟩
  · intro inp
    cases inp with
    | fileNotFound => simp [analyze_file]
    | invalidJson => simp [analyze_file]
    | readError => simp [analyze_file]
    | ok data =>
      cases data <;> simp [analyze_file, isDictVal] <;> split <;> simp
  · intro entries hF
    simp only [analyze_file]
    cases hd : dictGet entries "history" with
    | none => rfl
    | some j =>
      cases j <;> try rfl
      rename_i l
      rw [historyIsList, hd] at hF
      cases hF
  · intro entries pts hd hEmpty
    simp only [analyze_file, hd]
    rw [show analyzeHistory fmtOk pts = { issues := [.historyEmpty] } from by
      simp [analyzeHistory, hEmpty]]
  · intro entries pts hd hne h0
    have hP : (parsePoints pts).1.isEmpty = true := by
      simpa [validPointCount, List.isEmpty_iff_length_eq_zero] using h0
    rcases analyzeHistory_shape fmtOk pts with ⟨hE, _⟩ | ⟨_, _, heq⟩ |
      ⟨_, hP', _⟩
    · rw [hE] at hne
      cases hne
    · simp only [analyze_file, hd]
      rw [heq]
    · rw [hP'] at hP
      cases hP
  · intro entries pts res hd hres hm
    have hres' : res = analyzeHistory fmtOk pts := by
      simp only [analyze_file, hd] at hres
      exact (Except.ok.inj hres).symm
    subst hres'
    rcases analyzeHistory_shape fmtOk pts with ⟨hE, _⟩ | ⟨_, _, heq⟩ |
      ⟨_, _, sdIss, tsIss, _, _, hiss, _, _, _⟩
    · have : pts = [] := List.isEmpty_iff.mp hE
      subst this
      simp [parsePoints] at hm
    · rw [heq, if_pos hm]
      simp
    · rw [hiss, if_pos hm]
      simp
  · intro entries pts res hd hres hP hmin
    have hres' : res = analyzeHistory fmtOk pts := by
      simp only [analyze_file, hd] at hres
      exact (Except.ok.inj hres).symm
    subst hres'
    rcases analyzeHistory_shape fmtOk pts with ⟨hE, _⟩ | ⟨_, hP', _⟩ |
      ⟨_, _, sdIss, tsIss, _, _, hiss, _, _, hts⟩
    · have : pts = [] := List.isEmpty_iff.mp hE
      subst this
      simp [parsePoints] at hP
    · rw [hP'] at hP
      cases hP
    · obtain ⟨htsi, hmn, hmx⟩ := hts hmin
      subst htsi
      refine ⟨?_, hmn, hmx⟩
      rw [hiss]
      simp
  · intro inp res hok hmean
    cases inp with
    | fileNotFound =>
      rw [show res = { issues := [Issue.fileNotFound] } from
        (Except.ok.inj hok).symm]
      simp
    | invalidJson =>
      rw [show res = { issues := [Issue.invalidJson] } from
        (Except.ok.inj hok).symm]
      simp
    | readError =>
      rw [show res = { issues := [Issue.fileReadError] } from
        (Except.ok.inj hok).symm]
      simp
    | ok data =>
      cases data <;> try cases hok
      rename_i entries
      revert hok
      simp only [analyze_file]
      cases hd : dictGet entries "history" with
      | none =>
        intro hok
        rw [show res = { issues := [Issue.historyNotList] } from
          (Except.ok.inj hok).symm]
        simp
      | some j =>
        cases j <;>
          (try (intro hok
                rw [show res = { issues := [Issue.historyNotList] } from
                  (Except.ok.inj hok).symm]
                simp))
        rename_i pts
        intro hok
        have hres' : res = analyzeHistory fmtOk pts := (Except.ok.inj hok).symm
        subst hres'
        rcases analyzeHistory_shape fmtOk pts with ⟨_, heq⟩ | ⟨_, _, heq⟩ |
          ⟨_, _, sdIss, tsIss, _, _, _, hmean', _, _⟩
        · rw [heq]
          simp
        · rw [heq]
          simp
        · rw [hmean'] at hmean
          cases hmean

/-- Witness for C7's amended statement: a parsed object with no history key
returns the history-not-a-list record. -/
theorem analyze_file_error_and_degradation_witness :
    historyIsList [] = false
    ∧ analyze_file fromtimestampOk (.ok (.vdict []))
        = .ok { issues := [.historyNotList] } :=
  ⟨rfl, (analyze_file_error_and_degradation fromtimestampOk).2.2.2.2.1 [] rfl⟩

/-- C2: for every positive page limit, every fetch/save oracle, every fuel
bound and the starting watermark, the loop fetches exactly the offsets
watermark, watermark + limit, watermark + 2·limit, ... in order — so no
offset is fetched twice within a run — every non-final fetched offset
returned a non-empty page that was successfully persisted (fetch, then
persist, then advance: the exact step relation), and the halt state is
determined by the last fetched offset: `done` iff its page was empty,
`fetchError` iff its fetch failed, and on `saveError` its save failed and
every fetched offset is at most it (no later offset is fetched after a save
failure). -/
theorem paginated_fetch_state_machine {α : Type} (f : Nat → Option (List α))
    (s : Nat → Bool) (L fuel watermark : Nat) (hL : 0 < L) :
    (∀ i (hi : i < (marketFetchLoop f s L fuel watermark).1.length),
        (marketFetchLoop f s L fuel watermark).1.get ⟨i, hi⟩ = watermark + i * L)
    ∧ (marketFetchLoop f s L fuel watermark).1.Nodup
    ∧ (∀ i, i + 1 < (marketFetchLoop f s L fuel watermark).1.length →
        s (watermark + i * L) = true
        ∧ ∃ pg, f (watermark + i * L) = some pg ∧ pg ≠ [])
    ∧ ((marketFetchLoop f s L fuel watermark).2 = .saveError →
        ∃ last, (marketFetchLoop f s L fuel watermark).1.getLast? = some last
          ∧ s last = false
          ∧ ∀ off ∈ (marketFetchLoop f s L fuel watermark).1, off ≤ last)
    ∧ ((marketFetchLoop f s L fuel watermark).2 = .done →
        ∃ last, (marketFetchLoop f s L fuel watermark).1.getLast? = some last
          ∧ f last = some [])
    ∧ ((marketFetchLoop f s L fuel watermark).2 = .fetchError →
        ∃ last, (marketFetchLoop f s L fuel watermark).1.getLast? = some last
          ∧ f last = none) := by
  obtain ⟨g1, g2, g3, g4, g5⟩ := marketFetchLoop_char f s L fuel watermark
  refine ⟨g1, ?_, g2, g3, g4, g5⟩
  rw [List.nodup_iff_injective_get]
  intro i j hij
  rw [g1 i i.isLt, g1 j j.isLt] at hij
  have : i.val = j.val := by
    have : i.val * L = j.val * L := by omega
    exact Nat.eq_of_mul_eq_mul_right hL this
  exact Fin.ext this

/-- Witness for C2 at a concrete run: limit 20, watermark 0, fetch returns
non-empty pages below offset 40 and an empty page at 40, saves succeed. -/
theorem paginated_fetch_state_machine_witness :
    (0 : Nat) < 20
    ∧ (marketFetchLoop
        (fun off => if off < 40 then some [0] else some ([] : List Nat))
        (fun _ => true) 20 5 0).1.Nodup :=
  ⟨by decide,
   (paginated_fetch_state_machine
      (fun off => if off < 40 then some [0] else some ([] : List Nat))
      (fun _ => true) 20 5 0 (by decide)).2.1⟩

end Polymarket
